import Mathlib

/-!
# cuvs `neighbors/detail/hnsw.hpp`: the frozen-index HNSW query path

A shallow embedding of `cpp/src/neighbors/detail/hnsw.hpp`:

* `index_impl<T>`: its constructor (selection of the hnswlib distance space,
  the `RAFT_EXPECTS` check, loading the hnswlib index, `base_layer_only = true`),
  `get_index` and `set_ef`;
* `get_search_knn_results`: the call of `searchKnn`, the size assertion and the
  count-down loop that pops the result max-heap into the two output rows;
* `search`: `set_ef`, then one `get_search_knn_results` per query inside an
  OpenMP `parallel for`.

hnswlib (`HierarchicalNSW`, `searchKnn`, the index loader) and OpenMP are
external to this file of the repository.  They appear as parameters:
`searchKnn` is an arbitrary function of the engine state, the query pointer and
`k`; the index loader is an arbitrary fallible function; the OpenMP runtime is
an arbitrary function choosing the order in which the iterations of a
`parallel for` are executed.

The distance type `dist_t` of the queue is `int` (for `int8_t`/`uint8_t` data) or
`float`; the output `distances` is always a `float` buffer, so every store converts the
distance to `float`.  The type `float` has NaN, the two infinities and the finite numbers;
the conversion of an `int` rounds to 24 significant bits.  Labels
(`hnswlib::labeltype`, `uint64_t`) are natural numbers.
-/

set_option linter.unusedSectionVars false

namespace cuvs.neighbors.hnsw.detail

/-! ## Machine integers -/

/-- Conversion of a signed integer to `size_t` (64 bit): reduction modulo `2^64`. -/
def to_size_t (x : Int) : Nat := (x % 2 ^ 64).toNat

/-- Conversion of an `int64_t` to `int` (32 bit, two's complement wrap), as happens when
`neighbors.extent(1)` is passed for the parameter `int k`. -/
def to_int (x : Int) : Int := (x + 2 ^ 31) % 2 ^ 32 - 2 ^ 31

/-! ## The type `float` and the distance types -/

/-- A value of the C++ type `float`, as far as comparison sees it: NaN, minus infinity, a
finite number (a rational; every finite `float` is one) or plus infinity. -/
inductive float where
  | nan
  | neg_inf
  | num (x : ℚ)
  | inf
  deriving DecidableEq

/-- Numerals denote finite numbers. -/
instance float_ofNat (n : Nat) : OfNat float n := ⟨float.num (n : ℚ)⟩

/-- The test `std::isnan`. -/
def float.is_nan : float → Bool
  | float.nan => true
  | _ => false

/-- The comparison `a < b` of two `float` values: false as soon as one of them is NaN. -/
def float.lt : float → float → Bool
  | float.nan, _ => false
  | _, float.nan => false
  | float.neg_inf, float.neg_inf => false
  | float.neg_inf, _ => true
  | float.num _, float.neg_inf => false
  | float.num x, float.num y => decide (x < y)
  | float.num _, float.inf => true
  | float.inf, _ => false

/-- The comparison `a <= b` of two `float` values: false as soon as one of them is NaN. -/
def float.le (a b : float) : Bool :=
  float.lt a b || (!a.is_nan && !b.is_nan && decide (a = b))

/-- The multiple of `p` nearest to `a`, the even multiple on a tie. -/
def round_to (p a : Nat) : Nat :=
  if 2 * (a % p) < p ∨ (2 * (a % p) = p ∧ (a / p) % 2 = 0) then (a / p) * p
  else (a / p + 1) * p

/-- The spacing of the `float` values around `a`: 1 below `2^24`, doubling with every
further bit of `a`.  The first argument bounds the number of halvings. -/
def float_ulp : Nat → Nat → Nat
  | 0, _ => 1
  | n + 1, a => if a < 2 ^ 24 then 1 else 2 * float_ulp n (a / 2)

/-- The value of `static_cast<float>(a)` for a natural number `a` in the range of `int`:
`a` rounded to 24 significant bits, ties to even. -/
def round_float24 (a : Nat) : Nat :=
  if a < 2 ^ 24 then a else round_to (float_ulp a a) a

/-- The value of `static_cast<float>(x)` for an `int`, as an integer. -/
def int_round (x : Int) : Int :=
  if x < 0 then -((round_float24 x.natAbs : Nat) : Int)
  else ((round_float24 x.natAbs : Nat) : Int)

/-- The conversion `static_cast<float>(x)` of an `int`: the nearest `float`, which is
finite, every `int` being far below the largest finite `float`. -/
def int_to_float (x : Int) : float := float.num (int_round x : ℚ)

/-- The distance type `dist_t` of the queue (`hnsw_dist_t<T>::type`): its comparison `<`,
the test for NaN, and the implicit conversion to `float` of the store
`distances[i] = result.top().first`. -/
class dist_t (D : Type) where
  lt : D → D → Bool
  is_nan : D → Bool
  to_float : D → float

/-- The distance type `int`: integer comparison, no NaN, rounding conversion. -/
instance dist_t_int : dist_t Int :=
  { lt := fun a b => decide (a < b), is_nan := fun _ => false, to_float := int_to_float }

/-- The distance type `float`: `float` comparison, no conversion. -/
instance dist_t_float : dist_t float :=
  { lt := float.lt, is_nan := float.is_nan, to_float := fun x => x }

/-- The position of a NaN-free distance on a line: `key` orders the distances as the
comparison of the type does. -/
def float.key : float → ℤ ×ₗ ℚ
  | float.nan => toLex (0, 0)
  | float.neg_inf => toLex (-1, 0)
  | float.num x => toLex (0, x)
  | float.inf => toLex (1, 0)

/-- The comparison of a distance type agrees with the order of `key` on the values that
are not NaN. -/
def key_orders {D : Type} [dist_t D] (key : D → ℤ ×ₗ ℚ) : Prop :=
  ∀ a b : D, dist_t.is_nan a = false → dist_t.is_nan b = false →
    (dist_t.lt a b = true ↔ key a < key b)

/-- The conversion to `float` is monotone for the order of `key` on the values that are
not NaN: the converted values compare with `<=`. -/
def key_converts {D : Type} [dist_t D] (key : D → ℤ ×ₗ ℚ) : Prop :=
  ∀ a b : D, dist_t.is_nan a = false → dist_t.is_nan b = false → key a ≤ key b →
    float.le (dist_t.to_float a) (dist_t.to_float b) = true

/-- A distance type is ordered when, on its values that are not NaN, the comparison is a
total order (that of some `key`) and the conversion to `float` is monotone. -/
def dist_ordered (D : Type) [dist_t D] : Prop :=
  ∃ key : D → ℤ ×ₗ ℚ, key_orders key ∧ key_converts key

/-! ## Outcomes -/

/-- How a call ends: it returns, an `assert` fails (the process is aborted and no state
survives), or it runs into undefined behaviour (`top()` of an empty queue, a store outside
the buffer). -/
inductive Outcome (α : Type) where
  | ok (a : α)
  | assert_failed
  | undefined_behaviour
  deriving DecidableEq, Repr

/-- Exceptions thrown by the constructor of `index_impl`: `RAFT_EXPECTS` throws
`raft::logic_error` with its message; the hnswlib loader may throw on its own. -/
inductive Error where
  | logic_error (msg : String)
  | hnswlib_error (msg : String)
  deriving DecidableEq, Repr

/-! ## Types of the index -/

/-- Element types `T` for which `hnsw_dist_t<T>` is specialised. -/
inductive ElemType where
  | float
  | int8
  | uint8
  deriving DecidableEq, Repr

/-- The distance value types `hnsw_dist_t<T>::type`. -/
inductive DistType where
  | float
  | int
  deriving DecidableEq, Repr

/-- The trait `hnsw_dist_t`: `float` for `float`, `int` for `uint8_t` and `int8_t`. -/
def hnsw_dist_t : ElemType → DistType
  | .float => .float
  | .uint8 => .int
  | .int8 => .int

/-- Modelled from the spec: the enumeration `cuvs::distance::DistanceType` is declared in a
header outside this file.  The constructor of `index_impl` compares the metric with
`L2Expanded` and with `InnerProduct` only; every other enumerator is `other` with its code. -/
inductive DistanceType where
  | L2Expanded
  | InnerProduct
  | other (code : Nat)
  deriving DecidableEq, Repr

/-- The hnswlib distance spaces the constructor can create. -/
inductive Space where
  | L2Space (dim : Int)
  | InnerProductSpace (dim : Int)
  | L2SpaceI (T : ElemType) (dim : Int)
  deriving DecidableEq, Repr

/-- The engine `hnswlib::HierarchicalNSW`: the two fields this file assigns, `ef_`
(a `size_t`) and `base_layer_only`, and everything else (graph, links, data) as `graph`. -/
structure HierarchicalNSW (G : Type) where
  ef_ : Nat
  base_layer_only : Bool
  graph : G
  deriving DecidableEq, Repr

/-- The class `index_impl<T>`: the base `index<T>{dim, metric}` and the two owned members. -/
structure index_impl (G : Type) where
  dim : Int
  metric : DistanceType
  appr_alg_ : HierarchicalNSW G
  space_ : Space
  deriving DecidableEq, Repr

/-- Modelled from the spec: the struct `search_params` is declared in the public header
`cuvs/neighbors/hnsw.hpp`, outside this file.  `search` reads its fields `ef` (passed to
`set_ef(int)`) and `num_threads` (0 means automatic parallelism). -/
structure search_params where
  ef : Int
  num_threads : Int
  deriving DecidableEq, Repr

/-- A row-major `raft::host_matrix_view`: the memory behind `data_handle()` and the extents. -/
structure host_matrix_view (α : Type) where
  data_handle : List α
  extent0 : Nat
  extent1 : Nat

/-- An output pointer: the buffer it points into and its element offset in that buffer. -/
structure Ptr (α : Type) where
  mem : List α
  off : Nat

/-- The store `p[i] = v`; outside the buffer it is undefined behaviour (`none`). -/
def Ptr.store {α : Type} (p : Ptr α) (i : Nat) (v : α) : Option (Ptr α) :=
  if p.off + i < p.mem.length then some ⟨p.mem.set (p.off + i) v, p.off⟩ else none

/-! ## The constructor of `index_impl`, `get_index`, `set_ef` -/

/-- The nested `if constexpr` of the constructor: the value of `space_` before the
`RAFT_EXPECTS`, `none` for the null pointer. -/
def select_space (T : ElemType) (dim : Int) (metric : DistanceType) : Option Space :=
  match T with
  | .float =>
    if metric = DistanceType.L2Expanded then some (Space.L2Space dim)
    else if metric = DistanceType.InnerProduct then some (Space.InnerProductSpace dim)
    else none
  | .int8 =>
    if metric = DistanceType.L2Expanded then some (Space.L2SpaceI ElemType.int8 dim) else none
  | .uint8 =>
    if metric = DistanceType.L2Expanded then some (Space.L2SpaceI ElemType.uint8 dim) else none

/-- The message of the `RAFT_EXPECTS` in the constructor. -/
def unsupported_metric_msg : String := "Unsupported metric type was used"

/-- The constructor `index_impl::index_impl(filepath, dim, metric)`.  `load` is the constructor of
`hnswlib::HierarchicalNSW` from a space and a file, which may throw. -/
def index_impl.ctor {G : Type}
    (load : Space → String → Except String (HierarchicalNSW G))
    (T : ElemType) (filepath : String) (dim : Int) (metric : DistanceType) :
    Except Error (index_impl G) :=
  match select_space T dim metric with
  | none => Except.error (Error.logic_error unsupported_metric_msg)
  | some space =>
    match load space filepath with
    | Except.error e => Except.error (Error.hnswlib_error e)
    | Except.ok alg =>
      Except.ok
        { dim := dim, metric := metric, appr_alg_ := { alg with base_layer_only := true },
          space_ := space }

/-- The accessor `get_index()`: the hnswlib engine. -/
def index_impl.get_index {G : Type} (idx : index_impl G) : HierarchicalNSW G := idx.appr_alg_

/-- The method `set_ef(int ef)`: `appr_alg_->ef_ = ef`, with the conversion to `size_t`. -/
def index_impl.set_ef {G : Type} (idx : index_impl G) (ef : Int) : index_impl G :=
  { idx with appr_alg_ := { idx.appr_alg_ with ef_ := to_size_t ef } }

/-! ## The result queue of `searchKnn` -/

variable {D : Type} [DecidableEq D] [dist_t D]

/-- The comparison `operator<` of `std::pair<dist_t, labeltype>`. -/
def pair_lt (a b : D × Nat) : Bool :=
  dist_t.lt a.1 b.1 || (!dist_t.lt b.1 a.1 && decide (a.2 < b.2))

/-- The greatest of `m` and the entries of a list under `pair_lt`. -/
def pq_max : D × Nat → List (D × Nat) → D × Nat
  | m, [] => m
  | m, x :: xs => pq_max (if pair_lt m x then x else m) xs

/-- The call `top()` of `std::priority_queue<std::pair<dist_t, labeltype>>`, given the
entries the queue holds, in storage order: the greatest entry, found by one scan with
`pair_lt`; undefined (`none`) on an empty queue.  When no distance is NaN, `pair_lt` is a
total order and the greatest entry is the same for every storage order. -/
def pq_top : List (D × Nat) → Option (D × Nat)
  | [] => none
  | x :: xs => some (pq_max x xs)

/-- The entries of a queue without the first occurrence of `t`. -/
def remove_one (t : D × Nat) : List (D × Nat) → List (D × Nat)
  | [] => []
  | x :: xs => if x = t then xs else x :: remove_one t xs

/-- The call `pop()`: one occurrence of the greatest entry leaves the queue. -/
def pq_pop (q : List (D × Nat)) : List (D × Nat) :=
  match pq_top q with
  | none => q
  | some t => remove_one t q

/-- The distance of an entry as the store `distances[i] = result.top().first` writes it. -/
def dist_of (e : D × Nat) : float := dist_t.to_float e.1

/-- An entry as the two stores of one iteration write it: converted distance and label. -/
def stored (e : D × Nat) : float × Nat := (dist_of e, e.2)

/-- The position of an entry whose distance is not NaN in the order of the pairs. -/
def pair_key (key : D → ℤ ×ₗ ℚ) (a : D × Nat) : (ℤ ×ₗ ℚ) ×ₗ ℕ := toLex (key a.1, a.2)

/-- The first `n` entries popped from a queue, in pop order. -/
def pop_seq : Nat → List (D × Nat) → List (D × Nat)
  | 0, _ => []
  | n + 1, q =>
    match pq_top q with
    | none => []
    | some t => t :: pop_seq n (pq_pop q)

/-! ## `get_search_knn_results` and `search` -/

/-- The loop `for (int i = k - 1; i >= 0; --i)` with `n = i + 1` iterations left: the
iteration for `i = n` stores the label of `result.top()` at index `n` of `indices` and its
distance, converted to `float`, at index `n` of `distances`, then pops. -/
def write_loop : Nat → List (D × Nat) → Ptr Nat → Ptr float →
    Option (List Nat × List float)
  | 0, _, indices, distances => some (indices.mem, distances.mem)
  | n + 1, result, indices, distances =>
    match pq_top result with
    | none => none
    | some t =>
      match indices.store n t.2 with
      | none => none
      | some indices1 =>
        match distances.store n (dist_t.to_float t.1) with
        | none => none
        | some distances1 => write_loop n (pq_pop result) indices1 distances1

/-- The function `get_search_knn_results(idx, query, k, indices, distances)`.  The query
pointer is the memory from the pointer on; the result is the content of the two output
buffers on return. -/
def get_search_knn_results {G QT : Type}
    (searchKnn : HierarchicalNSW G → List QT → Nat → List (D × Nat))
    (idx : HierarchicalNSW G) (query : List QT) (k : Int)
    (indices : Ptr Nat) (distances : Ptr float) : Outcome (List Nat × List float) :=
  let result := searchKnn idx query (to_size_t k)
  if result.length < to_size_t k then Outcome.assert_failed
  else
    match write_loop k.toNat result indices distances with
    | some out => Outcome.ok out
    | none => Outcome.undefined_behaviour

/-- A `#pragma omp parallel for` whose iterations are executed in the order `order`; an
iteration that does not return ends the whole loop. -/
def parallel_for {S : Type} (body : Nat → S → Outcome S) : List Nat → S → Outcome S
  | [], s => Outcome.ok s
  | i :: rest, s =>
    match body i s with
    | Outcome.ok s1 => parallel_for body rest s1
    | Outcome.assert_failed => Outcome.assert_failed
    | Outcome.undefined_behaviour => Outcome.undefined_behaviour

/-- Iteration `i` of either loop of `search`: the call of `get_search_knn_results` on the
query pointer `queries.data_handle() + i * queries.extent(1)` with `k = neighbors.extent(1)`
and the output pointers `neighbors.data_handle() + i * neighbors.extent(1)` and
`distances.data_handle() + i * distances.extent(1)`.  `nx` and `dx` are the two
`extent(1)` of the outputs, `out` the content of the two output buffers.  The offsets are
`int64_t` products; they are exact for every buffer that fits in memory. -/
def search_body {G QT : Type}
    (searchKnn : HierarchicalNSW G → List QT → Nat → List (D × Nat))
    (hnswlib_index : HierarchicalNSW G) (queries : host_matrix_view QT) (nx dx : Nat)
    (i : Nat) (out : List Nat × List float) : Outcome (List Nat × List float) :=
  get_search_knn_results searchKnn hnswlib_index
    (queries.data_handle.drop (i * queries.extent1))
    (to_int nx)
    ⟨out.1, i * nx⟩
    ⟨out.2, i * dx⟩

/-- The function `search(res, params, idx, queries, neighbors, distances)`.  `omp clause n`
is the order in which the OpenMP runtime executes the `n` iterations of a `parallel for`
with the given `num_threads` clause (`none`: no clause).  The result is the index after
the call and the content of the two output matrices. -/
def search {G QT : Type}
    (searchKnn : HierarchicalNSW G → List QT → Nat → List (D × Nat))
    (omp : Option Int → Nat → List Nat)
    (params : search_params) (idx : index_impl G)
    (queries : host_matrix_view QT) (neighbors : host_matrix_view Nat)
    (distances : host_matrix_view float) :
    index_impl G × Outcome (List Nat × List float) :=
  let idx1 := idx.set_ef params.ef
  let hnswlib_index := idx1.get_index
  if params.num_threads ≠ 0 then
    (idx1,
      parallel_for
        (search_body searchKnn hnswlib_index queries neighbors.extent1 distances.extent1)
        (omp (some params.num_threads) queries.extent0)
        (neighbors.data_handle, distances.data_handle))
  else
    (idx1,
      parallel_for
        (search_body searchKnn hnswlib_index queries neighbors.extent1 distances.extent1)
        (omp none queries.extent0)
        (neighbors.data_handle, distances.data_handle))

/-- The queue `searchKnn` returns in iteration `i` of `search` when `k = c`. -/
def query_result {G QT : Type}
    (searchKnn : HierarchicalNSW G → List QT → Nat → List (D × Nat))
    (hnswlib_index : HierarchicalNSW G) (queries : host_matrix_view QT) (c i : Nat) :
    List (D × Nat) :=
  searchKnn hnswlib_index (queries.data_handle.drop (i * queries.extent1)) c

/-! ## A small index for concrete runs

hnswlib is a parameter of the embedding.  The concrete runs below use a one-dimensional
index whose engine stores the positions of its points. -/

/-- A stand-in for `searchKnn` on a one-dimensional index: the points within distance 10 of
the first query coordinate are reachable; at most `k` of them are returned, each with its
distance to the query and its position in the index as label. -/
def line_searchKnn (eng : HierarchicalNSW (List Int)) (query : List Int) (k : Nat) :
    List (Int × Nat) :=
  ((((List.range eng.graph.length).zip eng.graph).filter
      (fun e => decide ((query.headD 0 - e.2).natAbs ≤ 10))).take k).map
    (fun e => (((query.headD 0 - e.2).natAbs : Int), e.1))

/-- A stand-in for `searchKnn` that does not trim its queue to `k` entries: every reachable
point is returned. -/
def line_searchAll (eng : HierarchicalNSW (List Int)) (query : List Int) (_k : Nat) :
    List (Int × Nat) :=
  (((List.range eng.graph.length).zip eng.graph).filter
      (fun e => decide ((query.headD 0 - e.2).natAbs ≤ 10))).map
    (fun e => (((query.headD 0 - e.2).natAbs : Int), e.1))

/-- An engine over the points 0, 7, 3, 12, 40. -/
def line_engine : HierarchicalNSW (List Int) :=
  { ef_ := 10, base_layer_only := true, graph := [0, 7, 3, 12, 40] }

/-- The index owning `line_engine`. -/
def line_index : index_impl (List Int) :=
  { dim := 1, metric := DistanceType.L2Expanded, appr_alg_ := line_engine,
    space_ := Space.L2SpaceI ElemType.int8 1 }

/-- A loader that opens every file and yields `line_engine` with hnswlib's defaults. -/
def line_load (_space : Space) (_filepath : String) :
    Except String (HierarchicalNSW (List Int)) :=
  Except.ok { line_engine with base_layer_only := false }

/-- An OpenMP runtime that executes the iterations in ascending order. -/
def omp_ascending (_clause : Option Int) (n : Nat) : List Nat := List.range n

/-- An OpenMP runtime that executes the iterations in descending order when a
`num_threads` clause is present and in ascending order otherwise. -/
def omp_mixed (clause : Option Int) (n : Nat) : List Nat :=
  match clause with
  | some _ => (List.range n).reverse
  | none => List.range n

/-- A batch of three one-dimensional queries: 5, 9 and 1. -/
def line_queries : host_matrix_view Int :=
  { data_handle := [5, 9, 1], extent0 := 3, extent1 := 1 }

/-- A batch of three one-dimensional queries whose second query, 100, reaches no point. -/
def far_queries : host_matrix_view Int :=
  { data_handle := [5, 100, 9], extent0 := 3, extent1 := 1 }

/-- A batch of three two-dimensional queries, against the one-dimensional line index. -/
def wide_queries : host_matrix_view Int :=
  { data_handle := [5, 0, 9, 0, 1, 0], extent0 := 3, extent1 := 2 }

/-- A preallocated `3 x 2` matrix of neighbors. -/
def line_neighbors : host_matrix_view Nat :=
  { data_handle := [0, 0, 0, 0, 0, 0], extent0 := 3, extent1 := 2 }

/-- A preallocated `3 x 2` matrix of distances. -/
def line_distances : host_matrix_view float :=
  { data_handle := [0, 0, 0, 0, 0, 0], extent0 := 3, extent1 := 2 }

/-- A stand-in for `searchKnn` that returns a given queue, whatever the query. -/
def queue_searchKnn {E : Type} (queue : List (E × Nat)) (_eng : HierarchicalNSW Unit)
    (_query : List E) (_k : Nat) : List (E × Nat) := queue

/-- An engine without content, for `queue_searchKnn`. -/
def unit_engine : HierarchicalNSW Unit := { ef_ := 10, base_layer_only := true, graph := () }

/-- A `float` queue with a NaN distance, in the storage order that the pushes of
`(nan, 0)`, `(1, 1)`, `(2, 2)`, `(3, 3)` leave. -/
def nan_queue : List (float × Nat) := [(3, 3), (2, 2), (1, 1), (float.nan, 0)]

/-- A `float` queue without NaN, with an infinite distance. -/
def inf_queue : List (float × Nat) := [(2, 3), (float.inf, 7), (1, 1)]

/-- An `int` queue of three entries at the same distance. -/
def tie_queue : List (Int × Nat) := [(1, 0), (1, 1), (1, 2)]


/-! ## The conversion of an `int` to `float` is monotone -/

theorem round_to_bounds (p a : Nat) :
    (a / p) * p ≤ round_to p a ∧ round_to p a ≤ (a / p + 1) * p := by
  unfold round_to
  have h : (a / p) * p ≤ (a / p + 1) * p := Nat.mul_le_mul_right p (Nat.le_succ _)
  split <;> exact ⟨by omega, by omega⟩

theorem round_to_mono (p a b : Nat) (hab : a ≤ b) :
    round_to p a ≤ round_to p b := by
  have hq : a / p ≤ b / p := Nat.div_le_div_right hab
  rcases Nat.lt_or_ge (a / p) (b / p) with hlt | hge
  · have h1 := (round_to_bounds p a).2
    have h2 := (round_to_bounds p b).1
    have h3 : (a / p + 1) * p ≤ (b / p) * p := Nat.mul_le_mul_right p hlt
    omega
  · have heq : a / p = b / p := by omega
    have ha := Nat.div_add_mod a p
    have hb := Nat.div_add_mod b p
    have hr : a % p ≤ b % p := by
      rw [heq] at ha
      omega
    have hm : (b / p) * p ≤ (b / p + 1) * p := Nat.mul_le_mul_right p (Nat.le_succ _)
    unfold round_to
    rw [heq]
    split <;> split <;> omega

theorem float_ulp_bounds (n a : Nat) (h : a ≤ n) :
    (a < 2 ^ 24 → float_ulp n a = 1)
      ∧ (2 ^ 24 ≤ a → 2 ≤ float_ulp n a ∧ 2 ^ 23 * float_ulp n a ≤ a
          ∧ a < 2 ^ 24 * float_ulp n a) := by
  induction n generalizing a with
  | zero =>
    have : a = 0 := by omega
    subst this
    exact ⟨fun _ => rfl, fun h => by norm_num at h⟩
  | succ n ih =>
    refine ⟨fun h1 => by simp only [float_ulp, if_pos h1], fun h1 => ?_⟩
    have hnot : ¬ a < 2 ^ 24 := by omega
    simp only [float_ulp, if_neg hnot]
    have hih := ih (a / 2) (by omega)
    rcases Nat.lt_or_ge (a / 2) (2 ^ 24) with h2 | h2
    · rw [hih.1 h2]
      omega
    · have := hih.2 h2
      omega

theorem float_ulp_dvd (n m a b : Nat) (hab : a ≤ b) (han : a ≤ n) (hbm : b ≤ m) :
    float_ulp n a ∣ float_ulp m b := by
  induction n generalizing m a b with
  | zero => simp [float_ulp]
  | succ n ih =>
    by_cases h1 : a < 2 ^ 24
    · simp only [float_ulp, if_pos h1]
      exact Nat.one_dvd _
    · have h2 : ¬ b < 2 ^ 24 := by omega
      obtain ⟨m, rfl⟩ : ∃ m1, m = m1 + 1 := ⟨m - 1, by omega⟩
      simp only [float_ulp, if_neg h1, if_neg h2]
      exact Nat.mul_dvd_mul_left 2 (ih m (a / 2) (b / 2) (by omega) (by omega) (by omega))

theorem round_float24_mono (a b : Nat) (hab : a ≤ b) : round_float24 a ≤ round_float24 b := by
  unfold round_float24
  by_cases hb : b < 2 ^ 24
  · rw [if_pos hb, if_pos (by omega)]
    exact hab
  · rw [if_neg hb]
    obtain ⟨hb2, hb3, hb4⟩ := (float_ulp_bounds b b (le_refl _)).2 (by omega)
    have hbl : 2 ^ 23 * float_ulp b b ≤ (b / float_ulp b b) * float_ulp b b := by
      apply Nat.mul_le_mul_right
      exact (Nat.le_div_iff_mul_le (by omega)).mpr hb3
    have hbr := (round_to_bounds (float_ulp b b) b).1
    by_cases ha : a < 2 ^ 24
    · rw [if_pos ha]
      omega
    · rw [if_neg ha]
      obtain ⟨ha2, ha3, ha4⟩ := (float_ulp_bounds a a (le_refl _)).2 (by omega)
      obtain ⟨c, hc⟩ := float_ulp_dvd a b a b hab (le_refl _) (le_refl _)
      rcases Nat.lt_or_ge c 2 with hc2 | hc2
      · have hc1 : c = 1 := by
          rcases Nat.eq_zero_or_pos c with h0 | h0
          · subst h0
            omega
          · omega
        subst hc1
        rw [Nat.mul_one] at hc
        rw [hc]
        exact round_to_mono _ a b hab
      · have har := (round_to_bounds (float_ulp a a) a).2
        have hq : a / float_ulp a a < 2 ^ 24 :=
          (Nat.div_lt_iff_lt_mul (by omega)).mpr ha4
        have h1 : (a / float_ulp a a + 1) * float_ulp a a ≤ 2 ^ 24 * float_ulp a a :=
          Nat.mul_le_mul_right _ hq
        have h2 : float_ulp a a * 2 ≤ float_ulp a a * c := Nat.mul_le_mul_left _ hc2
        omega

theorem int_round_mono (a b : Int) (hab : a ≤ b) : int_round a ≤ int_round b := by
  unfold int_round
  by_cases ha : a < 0
  · by_cases hb : b < 0
    · rw [if_pos ha, if_pos hb]
      have := round_float24_mono b.natAbs a.natAbs (by omega)
      omega
    · rw [if_pos ha, if_neg hb]
      omega
  · rw [if_neg ha, if_neg (by omega)]
    have := round_float24_mono a.natAbs b.natAbs (by omega)
    omega

/-! ## The two distance types are ordered -/

theorem float_lt_iff_key (a b : float) (ha : a.is_nan = false) (hb : b.is_nan = false) :
    float.lt a b = true ↔ float.key a < float.key b := by
  cases a <;> cases b <;>
    simp [float.is_nan] at ha hb <;>
    simp [float.lt, float.key, Prod.Lex.lt_iff]

theorem float_key_injective (a b : float) (ha : a.is_nan = false) (hb : b.is_nan = false)
    (h : float.key a = float.key b) : a = b := by
  cases a <;> cases b <;>
    simp [float.is_nan] at ha hb <;>
    simp [float.key] at h <;> simp [h]

theorem float_le_of_key_le (a b : float) (ha : a.is_nan = false) (hb : b.is_nan = false)
    (h : float.key a ≤ float.key b) : float.le a b = true := by
  unfold float.le
  rcases lt_or_eq_of_le h with h1 | h1
  · rw [(float_lt_iff_key a b ha hb).mpr h1]
    rfl
  · have := float_key_injective a b ha hb h1
    simp [ha, hb, this]

theorem float_le_num (x y : ℚ) (h : x ≤ y) : float.le (float.num x) (float.num y) = true := by
  apply float_le_of_key_le (float.num x) (float.num y) rfl rfl
  rw [float.key, float.key, Prod.Lex.le_iff]
  exact Or.inr ⟨rfl, h⟩

/-- The distance type `int` is ordered: integer order, and the rounding conversion to
`float` is monotone. -/
theorem int_dist_ordered : dist_ordered Int := by
  refine ⟨fun x => toLex (0, (x : ℚ)), ?_, ?_⟩
  · intro a b _ _
    simp [dist_t.lt, Prod.Lex.lt_iff]
  · intro a b _ _ h
    have hab : a ≤ b := by
      rw [Prod.Lex.le_iff] at h
      rcases h with h1 | ⟨_, h1⟩
      · exact absurd h1 (lt_irrefl _)
      · have h2 : (a : ℚ) ≤ (b : ℚ) := h1
        exact_mod_cast h2
    show float.le (int_to_float a) (int_to_float b) = true
    unfold int_to_float
    exact float_le_num _ _ (by exact_mod_cast int_round_mono a b hab)

/-- The distance type `float` is ordered on its values that are not NaN. -/
theorem float_dist_ordered : dist_ordered float :=
  ⟨float.key, fun a b ha hb => float_lt_iff_key a b ha hb,
    fun a b ha hb h => float_le_of_key_le a b ha hb h⟩

/-! ## The result queue: greatest entry, pop order -/

theorem pair_lt_iff_key (key : D → ℤ ×ₗ ℚ) (hk : key_orders key) (a b : D × Nat)
    (ha : dist_t.is_nan a.1 = false) (hb : dist_t.is_nan b.1 = false) :
    pair_lt a b = true ↔ pair_key key a < pair_key key b := by
  unfold pair_key
  rw [Prod.Lex.lt_iff]
  simp only [pair_lt, Bool.or_eq_true, Bool.and_eq_true, Bool.not_eq_true', decide_eq_true_eq,
    ofLex_toLex]
  have h1 := hk a.1 b.1 ha hb
  have h2 := hk b.1 a.1 hb ha
  constructor
  · rintro (h | ⟨h3, h4⟩)
    · exact Or.inl (h1.mp h)
    · have h5 : ¬ key b.1 < key a.1 := by
        intro hc
        rw [h2.mpr hc] at h3
        cases h3
      rcases lt_or_eq_of_le (not_lt.mp h5) with h6 | h6
      · exact Or.inl h6
      · exact Or.inr ⟨h6, h4⟩
  · rintro (h | ⟨h3, h4⟩)
    · exact Or.inl (h1.mpr h)
    · refine Or.inr ⟨?_, h4⟩
      cases hc : dist_t.lt b.1 a.1 with
      | false => rfl
      | true => exact absurd (h2.mp hc) (by rw [h3]; exact lt_irrefl _)

theorem pair_lt_eq_false_iff (key : D → ℤ ×ₗ ℚ) (hk : key_orders key) (a b : D × Nat)
    (ha : dist_t.is_nan a.1 = false) (hb : dist_t.is_nan b.1 = false) :
    pair_lt a b = false ↔ pair_key key b ≤ pair_key key a := by
  rw [← not_lt, ← pair_lt_iff_key key hk a b ha hb]
  simp

theorem pq_max_mem (m : D × Nat) (xs : List (D × Nat)) : pq_max m xs ∈ m :: xs := by
  induction xs generalizing m with
  | nil => simp [pq_max]
  | cons x xs ih =>
    have h := ih (if pair_lt m x then x else m)
    simp only [pq_max]
    rcases List.mem_cons.mp h with h1 | h1
    · rw [h1]
      split <;> simp
    · exact List.mem_cons_of_mem _ (List.mem_cons_of_mem _ h1)

theorem pq_max_ge (key : D → ℤ ×ₗ ℚ) (hk : key_orders key) (m : D × Nat)
    (xs : List (D × Nat)) (hgood : ∀ y ∈ m :: xs, dist_t.is_nan y.1 = false) :
    ∀ y ∈ m :: xs, pair_key key y ≤ pair_key key (pq_max m xs) := by
  induction xs generalizing m with
  | nil => simp [pq_max]
  | cons x xs ih =>
    intro y hy
    simp only [pq_max]
    have gm : dist_t.is_nan m.1 = false := hgood m (List.mem_cons_self _ _)
    have gx : dist_t.is_nan x.1 = false :=
      hgood x (List.mem_cons_of_mem _ (List.mem_cons_self _ _))
    have h := ih (if pair_lt m x then x else m) (by
      intro z hz
      rcases List.mem_cons.mp hz with h1 | h1
      · rw [h1]
        split
        · exact gx
        · exact gm
      · exact hgood z (List.mem_cons_of_mem _ (List.mem_cons_of_mem _ h1)))
    have hm : pair_key key m ≤ pair_key key (if pair_lt m x then x else m) := by
      by_cases hc : pair_lt m x = true
      · rw [if_pos hc]
        exact le_of_lt ((pair_lt_iff_key key hk m x gm gx).mp hc)
      · rw [if_neg hc]
    have hx : pair_key key x ≤ pair_key key (if pair_lt m x then x else m) := by
      by_cases hc : pair_lt m x = true
      · rw [if_pos hc]
      · rw [if_neg hc]
        exact (pair_lt_eq_false_iff key hk m x gm gx).mp (by simpa using hc)
    have h0 := h _ (List.mem_cons_self _ _)
    rcases List.mem_cons.mp hy with h1 | h1
    · rw [h1]
      exact le_trans hm h0
    · rcases List.mem_cons.mp h1 with h2 | h2
      · rw [h2]
        exact le_trans hx h0
      · exact h y (List.mem_cons_of_mem _ h2)

theorem pq_top_isSome (q : List (D × Nat)) (h : 0 < q.length) : ∃ t, pq_top q = some t := by
  cases q with
  | nil => simp at h
  | cons x xs => exact ⟨_, rfl⟩

theorem pq_top_mem {q : List (D × Nat)} {t : D × Nat} (h : pq_top q = some t) : t ∈ q := by
  cases q with
  | nil => simp [pq_top] at h
  | cons x xs =>
    simp only [pq_top, Option.some.injEq] at h
    rw [← h]
    exact pq_max_mem x xs

theorem pq_top_ge (key : D → ℤ ×ₗ ℚ) (hk : key_orders key) {q : List (D × Nat)}
    {t : D × Nat} (h : pq_top q = some t) (hgood : ∀ y ∈ q, dist_t.is_nan y.1 = false) :
    ∀ y ∈ q, pair_key key y ≤ pair_key key t := by
  cases q with
  | nil => simp
  | cons x xs =>
    simp only [pq_top, Option.some.injEq] at h
    rw [← h]
    exact pq_max_ge key hk x xs hgood

theorem pq_pop_of_top {q : List (D × Nat)} {t : D × Nat} (h : pq_top q = some t) :
    pq_pop q = remove_one t q := by
  simp [pq_pop, h]

theorem remove_one_perm (t : D × Nat) (q : List (D × Nat)) (h : t ∈ q) :
    q.Perm (t :: remove_one t q) := by
  induction q with
  | nil => simp at h
  | cons x xs ih =>
    by_cases hx : x = t
    · simp [remove_one, hx]
    · have ht : t ∈ xs := by
        rcases List.mem_cons.mp h with h1 | h1
        · exact absurd h1.symm hx
        · exact h1
      simp only [remove_one, if_neg hx]
      exact ((ih ht).cons x).trans (List.Perm.swap t x _)

theorem pq_pop_perm {q : List (D × Nat)} {t : D × Nat} (h : pq_top q = some t) :
    q.Perm (t :: pq_pop q) := by
  rw [pq_pop_of_top h]
  exact remove_one_perm t q (pq_top_mem h)

theorem pq_pop_length {q : List (D × Nat)} {t : D × Nat} (h : pq_top q = some t) :
    (pq_pop q).length + 1 = q.length := by
  have := (pq_pop_perm h).length_eq
  simpa using this.symm

theorem pop_seq_length (n : Nat) (q : List (D × Nat)) (h : n ≤ q.length) :
    (pop_seq n q).length = n := by
  induction n generalizing q with
  | zero => rfl
  | succ n ih =>
    obtain ⟨t, ht⟩ := pq_top_isSome q (by omega)
    have hl := pq_pop_length ht
    simp only [pop_seq, ht, List.length_cons]
    rw [ih (pq_pop q) (by omega)]

theorem pop_seq_take (n m : Nat) (q : List (D × Nat)) (h : n ≤ m) :
    pop_seq n q = (pop_seq m q).take n := by
  induction n generalizing q m with
  | zero => simp [pop_seq]
  | succ n ih =>
    obtain ⟨m, rfl⟩ : ∃ m1, m = m1 + 1 := ⟨m - 1, by omega⟩
    cases ht : pq_top q with
    | none => simp [pop_seq, ht]
    | some t =>
      simp only [pop_seq, ht, List.take_succ_cons]
      rw [ih m (pq_pop q) (by omega)]

theorem pop_seq_perm (q : List (D × Nat)) : (pop_seq q.length q).Perm q := by
  generalize hn : q.length = n
  induction n generalizing q with
  | zero =>
    have : q = [] := List.length_eq_zero.mp hn
    subst this
    simp [pop_seq]
  | succ n ih =>
    obtain ⟨t, ht⟩ := pq_top_isSome q (by omega)
    have hl := pq_pop_length ht
    simp only [pop_seq, ht]
    exact ((ih (pq_pop q) (by omega)).cons t).trans (pq_pop_perm ht).symm

theorem pop_seq_subset (n : Nat) (q : List (D × Nat)) : ∀ x ∈ pop_seq n q, x ∈ q := by
  induction n generalizing q with
  | zero => simp [pop_seq]
  | succ n ih =>
    intro x hx
    cases ht : pq_top q with
    | none => simp [pop_seq, ht] at hx
    | some t =>
      simp only [pop_seq, ht, List.mem_cons] at hx
      rcases hx with h1 | h1
      · rw [h1]
        exact pq_top_mem ht
      · have h2 := ih (pq_pop q) x h1
        exact (pq_pop_perm ht).symm.subset (List.mem_cons_of_mem _ h2)

/-- Without NaN the pop order is descending for the order of the pairs. -/
theorem pop_seq_sorted (key : D → ℤ ×ₗ ℚ) (hk : key_orders key) (n : Nat)
    (q : List (D × Nat)) (hgood : ∀ y ∈ q, dist_t.is_nan y.1 = false) :
    (pop_seq n q).Pairwise (fun a b => pair_key key b ≤ pair_key key a) := by
  induction n generalizing q with
  | zero => simp [pop_seq]
  | succ n ih =>
    cases ht : pq_top q with
    | none => simp [pop_seq, ht]
    | some t =>
      have hsub : ∀ y ∈ pq_pop q, y ∈ q := fun y hy =>
        (pq_pop_perm ht).symm.subset (List.mem_cons_of_mem _ hy)
      simp only [pop_seq, ht, List.pairwise_cons]
      refine ⟨?_, ih (pq_pop q) (fun y hy => hgood y (hsub y hy))⟩
      intro x hx
      exact pq_top_ge key hk ht hgood x (hsub x (pop_seq_subset n (pq_pop q) x hx))

theorem key_le_of_pair_key_le (key : D → ℤ ×ₗ ℚ) {a b : D × Nat}
    (h : pair_key key b ≤ pair_key key a) : key b.1 ≤ key a.1 := by
  unfold pair_key at h
  rw [Prod.Lex.le_iff] at h
  rcases h with h | ⟨h, _⟩
  · exact le_of_lt h
  · exact le_of_eq h

/-- Without NaN the distances of the pop order, as stored, are non-increasing. -/
theorem pop_seq_dist_sorted (key : D → ℤ ×ₗ ℚ) (hk : key_orders key) (hc : key_converts key)
    (n : Nat) (q : List (D × Nat)) (hgood : ∀ y ∈ q, dist_t.is_nan y.1 = false) :
    ((pop_seq n q).map dist_of).Pairwise (fun a b => float.le b a = true) := by
  rw [List.pairwise_map]
  refine (pop_seq_sorted key hk n q hgood).imp_of_mem ?_
  intro a b ha hb h
  exact hc b.1 a.1 (hgood b (pop_seq_subset n q b hb)) (hgood a (pop_seq_subset n q a ha))
    (key_le_of_pair_key_le key h)

/-! ## The write loop in closed form -/

theorem take_set_le {α : Type} (mem : List α) (off i : Nat) (v : α) (h : off ≤ i) :
    (mem.set i v).take off = mem.take off := by
  apply List.ext_getElem?
  intro j
  by_cases hj : j < off
  · rw [List.getElem?_take_of_lt hj, List.getElem?_take_of_lt hj,
      List.getElem?_set_ne (by omega)]
  · rw [List.getElem?_take_eq_none (by omega), List.getElem?_take_eq_none (by omega)]

theorem drop_set_self {α : Type} (mem : List α) (i : Nat) (v : α) (h : i < mem.length) :
    (mem.set i v).drop i = v :: mem.drop (i + 1) := by
  apply List.ext_getElem?
  intro j
  rw [List.getElem?_drop]
  cases j with
  | zero => simp [h]
  | succ j =>
    rw [List.getElem?_set_ne (by omega)]
    simp only [List.getElem?_cons_succ, List.getElem?_drop]
    congr 1
    omega

theorem write_loop_eq (n : Nat) (result : List (D × Nat)) (indices : Ptr Nat) (distances : Ptr float)
    (hn : n ≤ result.length) (hi : indices.off + n ≤ indices.mem.length)
    (hd : distances.off + n ≤ distances.mem.length) :
    write_loop n result indices distances =
      some (indices.mem.take indices.off ++ ((pop_seq n result).map Prod.snd).reverse
              ++ indices.mem.drop (indices.off + n),
            distances.mem.take distances.off ++ ((pop_seq n result).map dist_of).reverse
              ++ distances.mem.drop (distances.off + n)) := by
  induction n generalizing result indices distances with
  | zero => simp [write_loop, pop_seq]
  | succ n ih =>
    obtain ⟨t, ht⟩ := pq_top_isSome result (by omega)
    have hl := pq_pop_length ht
    have hi1 : indices.off + n < indices.mem.length := by omega
    have hd1 : distances.off + n < distances.mem.length := by omega
    simp only [write_loop, ht, Ptr.store, if_pos hi1, if_pos hd1, pop_seq]
    rw [ih (pq_pop result) _ _ (by omega) (by simp; omega) (by simp; omega)]
    simp only [take_set_le _ _ _ _ (Nat.le_add_right _ _), drop_set_self _ _ _ hi1,
      drop_set_self _ _ _ hd1, List.map_cons, List.reverse_cons, List.append_assoc,
      List.singleton_append, Nat.add_assoc, dist_of]

/-! ## `get_search_knn_results` in closed form -/

theorem to_size_t_natCast (k : Nat) (hk : k < 2 ^ 31) : to_size_t (k : Int) = k := by
  unfold to_size_t
  have h : ((k : Int) % 2 ^ 64) = (k : Int) := Int.emod_eq_of_lt (by omega) (by omega)
  rw [h]
  simp

theorem splice_getElem?_in {α : Type} (pre row post : List α) (i : Nat) (hi : i < row.length) :
    (pre ++ row ++ post)[pre.length + i]? = row[i]? := by
  rw [List.append_assoc, List.getElem?_append_right (by omega)]
  rw [List.getElem?_append_left (by omega)]
  congr 1
  omega

theorem splice_getElem?_out {α : Type} (mem : List α) (off n : Nat) (row : List α)
    (hrow : row.length = n) (hoff : off + n ≤ mem.length) (s : Nat)
    (hs : s < off ∨ off + n ≤ s) :
    (mem.take off ++ row ++ mem.drop (off + n))[s]? = mem[s]? := by
  have hlen : (mem.take off).length = off := by simp; omega
  rcases hs with hs | hs
  · rw [List.append_assoc, List.getElem?_append_left (by omega), List.getElem?_take_of_lt hs]
  · rw [List.getElem?_append_right (by simp; omega), List.getElem?_drop]
    congr 1
    simp
    omega

theorem splice_length {α : Type} (mem : List α) (off n : Nat) (row : List α)
    (hrow : row.length = n) (hoff : off + n ≤ mem.length) :
    (mem.take off ++ row ++ mem.drop (off + n)).length = mem.length := by
  simp
  omega

theorem splice_drop_take {α : Type} (mem : List α) (off n : Nat) (row : List α)
    (hrow : row.length = n) (hoff : off + n ≤ mem.length) :
    ((mem.take off ++ row ++ mem.drop (off + n)).drop off).take n = row := by
  have hlen : (mem.take off).length = off := by simp; omega
  rw [List.append_assoc, List.drop_append_of_le_length (by omega)]
  rw [List.drop_of_length_le (by omega), List.nil_append, List.take_append_of_le_length (by omega)]
  exact List.take_of_length_le (by omega)

theorem get_search_knn_results_eq {G QT : Type}
    (searchKnn : HierarchicalNSW G → List QT → Nat → List (D × Nat))
    (idx : HierarchicalNSW G) (query : List QT) (k : Nat) (hk : k < 2 ^ 31)
    (indices : Ptr Nat) (distances : Ptr float)
    (hsize : k ≤ (searchKnn idx query k).length)
    (hi : indices.off + k ≤ indices.mem.length)
    (hd : distances.off + k ≤ distances.mem.length) :
    get_search_knn_results searchKnn idx query (k : Int) indices distances =
      Outcome.ok
        (indices.mem.take indices.off
            ++ ((pop_seq k (searchKnn idx query k)).map Prod.snd).reverse
            ++ indices.mem.drop (indices.off + k),
          distances.mem.take distances.off
            ++ ((pop_seq k (searchKnn idx query k)).map dist_of).reverse
            ++ distances.mem.drop (distances.off + k)) := by
  unfold get_search_knn_results
  simp only [to_size_t_natCast k hk, Int.toNat_ofNat]
  rw [if_neg (by omega), write_loop_eq k _ indices distances hsize hi hd]

theorem get_search_knn_results_short {G QT : Type}
    (searchKnn : HierarchicalNSW G → List QT → Nat → List (D × Nat))
    (idx : HierarchicalNSW G) (query : List QT) (k : Nat) (hk : k < 2 ^ 31)
    (indices : Ptr Nat) (distances : Ptr float)
    (hsize : (searchKnn idx query k).length < k) :
    get_search_knn_results searchKnn idx query (k : Int) indices distances =
      Outcome.assert_failed := by
  unfold get_search_knn_results
  simp only [to_size_t_natCast k hk]
  rw [if_pos hsize]

/-! ## One query: order, placement, short and long queues -/

theorem splice_getElem?_row {α : Type} (mem row post : List α) (off i : Nat)
    (hoff : off ≤ mem.length) (hi : i < row.length) :
    (mem.take off ++ row ++ post)[off + i]? = row[i]? := by
  have hlen : (mem.take off).length = off := by simp; omega
  have h := splice_getElem?_in (mem.take off) row post i hi
  rwa [hlen] at h

theorem zip_map_stored (l : List (D × Nat)) :
    List.zip (l.map dist_of) (l.map Prod.snd) = l.map stored := by
  induction l with
  | nil => rfl
  | cons x xs ih => simp [ih, stored]

theorem pop_seq_row_length (n : Nat) (q : List (D × Nat)) (h : n ≤ q.length) :
    ((pop_seq n q).map dist_of).reverse.length = n
      ∧ ((pop_seq n q).map Prod.snd).reverse.length = n := by
  simp [pop_seq_length n q h]

/-- C1, as the code behaves: for a distance type that is ordered (`int` and `float` are),
when `searchKnn` returns a queue of exactly `k` entries none of whose distances is NaN,
`get_search_knn_results` returns and the distances it wrote, each converted to `float`,
are non-decreasing: `distances[i] <= distances[i+1]` for every `i` with `i + 1 < k`. -/
theorem get_search_knn_results_ascending {G QT : Type} (hD : dist_ordered D)
    (searchKnn : HierarchicalNSW G → List QT → Nat → List (D × Nat))
    (idx : HierarchicalNSW G) (query : List QT) (k : Nat) (hk : k < 2 ^ 31)
    (indices : Ptr Nat) (distances : Ptr float)
    (hsize : (searchKnn idx query k).length = k)
    (hnan : ∀ e ∈ searchKnn idx query k, dist_t.is_nan e.1 = false)
    (hi : indices.off + k ≤ indices.mem.length)
    (hd : distances.off + k ≤ distances.mem.length) :
    ∃ ind dist,
      get_search_knn_results searchKnn idx query (k : Int) indices distances
        = Outcome.ok (ind, dist)
      ∧ ∀ i, i + 1 < k →
          ∃ a b, dist[distances.off + i]? = some a
            ∧ dist[distances.off + (i + 1)]? = some b ∧ float.le a b = true := by
  obtain ⟨key, hko, hkc⟩ := hD
  refine ⟨_, _, get_search_knn_results_eq searchKnn idx query k hk indices distances
    (by omega) hi hd, ?_⟩
  intro i hik
  have hlen := (pop_seq_row_length k (searchKnn idx query k) (by omega)).1
  have hsorted : (((pop_seq k (searchKnn idx query k)).map dist_of).reverse).Pairwise
      (fun a b => float.le a b = true) :=
    List.pairwise_reverse.mpr (pop_seq_dist_sorted key hko hkc k (searchKnn idx query k) hnan)
  rw [List.pairwise_iff_getElem] at hsorted
  have h1 : i < (((pop_seq k (searchKnn idx query k)).map dist_of).reverse).length := by omega
  have h2 : i + 1 < (((pop_seq k (searchKnn idx query k)).map dist_of).reverse).length := by
    omega
  refine ⟨_, _, ?_, ?_, hsorted i (i + 1) h1 h2 (by omega)⟩
  · rw [splice_getElem?_row _ _ _ _ _ (by omega) h1, List.getElem?_eq_getElem h1]
  · rw [splice_getElem?_row _ _ _ _ _ (by omega) h2, List.getElem?_eq_getElem h2]

/-- Witness of the amended C1: the query 5 on the line index (`int` distances) with `k = 3`,
and a `float` queue of three entries, one at infinite distance. -/
theorem get_search_knn_results_ascending_witness :
    ((line_searchKnn line_engine [5] 3).length = 3
      ∧ (∀ e ∈ line_searchKnn line_engine [5] 3, dist_t.is_nan e.1 = false)
      ∧ ∃ ind dist,
          get_search_knn_results line_searchKnn line_engine [5] ((3 : Nat) : Int)
            ⟨[0, 0, 0, 0], 1⟩ ⟨[0, 0, 0], 0⟩ = Outcome.ok (ind, dist)
          ∧ ∀ i, i + 1 < 3 →
              ∃ a b, dist[0 + i]? = some a ∧ dist[0 + (i + 1)]? = some b
                ∧ float.le a b = true)
      ∧ ((∀ e ∈ queue_searchKnn inf_queue unit_engine [] 3, dist_t.is_nan e.1 = false)
        ∧ ∃ ind dist,
            get_search_knn_results (queue_searchKnn inf_queue) unit_engine [] ((3 : Nat) : Int)
              ⟨[0, 0, 0], 0⟩ ⟨[0, 0, 0], 0⟩ = Outcome.ok (ind, dist)
            ∧ ∀ i, i + 1 < 3 →
                ∃ a b, dist[0 + i]? = some a ∧ dist[0 + (i + 1)]? = some b
                  ∧ float.le a b = true) :=
  ⟨⟨by decide, by decide,
      get_search_knn_results_ascending int_dist_ordered line_searchKnn line_engine [5] 3
        (by norm_num) ⟨[0, 0, 0, 0], 1⟩ ⟨[0, 0, 0], 0⟩ (by decide) (by decide) (by decide)
        (by decide)⟩,
    ⟨by decide,
      get_search_knn_results_ascending float_dist_ordered (queue_searchKnn inf_queue)
        unit_engine [] 3 (by norm_num) ⟨[0, 0, 0], 0⟩ ⟨[0, 0, 0], 0⟩ (by decide) (by decide)
        (by decide) (by decide)⟩⟩

/-- Counterexample to C1 as stated: a `float` queue of exactly 4 entries, one of them with a
NaN distance (a query with a NaN coordinate yields one).  The call returns with the
distances `nan, 1, 2, 3`, and `distances[0] <= distances[1]` is false. -/
theorem get_search_knn_results_nan_not_ascending :
    (queue_searchKnn nan_queue unit_engine [] 4).length = 4
      ∧ get_search_knn_results (queue_searchKnn nan_queue) unit_engine [] 4
          ⟨[0, 0, 0, 0], 0⟩ ⟨[0, 0, 0, 0], 0⟩
          = Outcome.ok ([0, 1, 2, 3], [float.nan, 1, 2, 3])
      ∧ float.le float.nan 1 = false
      ∧ ¬ ∀ i, i + 1 < 4 →
          ∃ a b, [float.nan, 1, 2, 3][i]? = some a ∧ [float.nan, 1, 2, 3][i + 1]? = some b
            ∧ float.le a b = true := by
  refine ⟨by decide, by decide, by decide, ?_⟩
  intro h
  obtain ⟨a, b, ha, hb, hab⟩ := h 0 (by norm_num)
  simp only [List.getElem?_cons_zero, Option.some.injEq, zero_add, List.getElem?_cons_succ]
    at ha hb
  subst ha
  subst hb
  revert hab
  decide

/-- C4, as the code behaves: when the queue holds fewer than `k` entries the size assertion
of `get_search_knn_results` fails; the call does not return, whatever the output pointers. -/
theorem get_search_knn_results_short_queue {G QT : Type}
    (searchKnn : HierarchicalNSW G → List QT → Nat → List (D × Nat))
    (idx : HierarchicalNSW G) (query : List QT) (k : Nat) (hk : k < 2 ^ 31)
    (indices : Ptr Nat) (distances : Ptr float)
    (hsize : (searchKnn idx query k).length < k) :
    get_search_knn_results searchKnn idx query (k : Int) indices distances
        = Outcome.assert_failed
      ∧ ∀ out, get_search_knn_results searchKnn idx query (k : Int) indices distances
          ≠ Outcome.ok out := by
  have h := get_search_knn_results_short searchKnn idx query k hk indices distances hsize
  refine ⟨h, ?_⟩
  intro out hout
  rw [h] at hout
  cases hout

/-- Witness of the amended C4: the query 45 reaches one point of the line index, `k = 4`. -/
theorem get_search_knn_results_short_queue_witness :
    (line_searchKnn line_engine [45] 4).length < 4
      ∧ (get_search_knn_results line_searchKnn line_engine [45] ((4 : Nat) : Int)
            ⟨[0, 0, 0, 0], 0⟩ ⟨[0, 0, 0, 0], 0⟩ = Outcome.assert_failed
          ∧ ∀ out, get_search_knn_results line_searchKnn line_engine [45] ((4 : Nat) : Int)
              ⟨[0, 0, 0, 0], 0⟩ ⟨[0, 0, 0, 0], 0⟩ ≠ Outcome.ok out) :=
  ⟨by decide,
    get_search_knn_results_short_queue line_searchKnn line_engine [45] 4 (by norm_num)
      ⟨[0, 0, 0, 0], 0⟩ ⟨[0, 0, 0, 0], 0⟩ (by decide)⟩

/-- Counterexample to C4 as stated: with `k = 4` the query 100 reaches no point and the
query 45 reaches one; both calls end in the failed assertion, so the outcome carries no
`InsufficientResults` value and the achieved count (0 or 1) cannot be read off it. -/
theorem get_search_knn_results_count_not_surfaced :
    (line_searchKnn line_engine [100] 4).length = 0
      ∧ (line_searchKnn line_engine [45] 4).length = 1
      ∧ get_search_knn_results line_searchKnn line_engine [100] 4
          ⟨[0, 0, 0, 0], 0⟩ ⟨[0, 0, 0, 0], 0⟩ = Outcome.assert_failed
      ∧ get_search_knn_results line_searchKnn line_engine [45] 4
          ⟨[0, 0, 0, 0], 0⟩ ⟨[0, 0, 0, 0], 0⟩ = Outcome.assert_failed
      ∧ ¬ ∃ achieved : Outcome (List Nat × List float) → Nat,
          ∀ query : List Int, (line_searchKnn line_engine query 4).length < 4 →
            achieved (get_search_knn_results line_searchKnn line_engine query 4
                ⟨[0, 0, 0, 0], 0⟩ ⟨[0, 0, 0, 0], 0⟩)
              = (line_searchKnn line_engine query 4).length := by
  refine ⟨by decide, by decide, by decide, by decide, ?_⟩
  rintro ⟨achieved, h⟩
  have h0 := h [100] (by decide)
  have h1 := h [45] (by decide)
  have e0 : get_search_knn_results line_searchKnn line_engine [100] 4
      ⟨[0, 0, 0, 0], 0⟩ ⟨[0, 0, 0, 0], 0⟩ = Outcome.assert_failed := by decide
  have e1 : get_search_knn_results line_searchKnn line_engine [45] 4
      ⟨[0, 0, 0, 0], 0⟩ ⟨[0, 0, 0, 0], 0⟩ = Outcome.assert_failed := by decide
  have l0 : (line_searchKnn line_engine [100] 4).length = 0 := by decide
  have l1 : (line_searchKnn line_engine [45] 4).length = 1 := by decide
  rw [e0, l0] at h0
  rw [e1, l1] at h1
  omega

theorem dist_not_lt_of_pair_key_le (key : D → ℤ ×ₗ ℚ) (hk : key_orders key) {w x : D × Nat}
    (hw : dist_t.is_nan w.1 = false) (hx : dist_t.is_nan x.1 = false)
    (h : pair_key key x ≤ pair_key key w) : dist_t.lt w.1 x.1 = false := by
  cases hc : dist_t.lt w.1 x.1 with
  | false => rfl
  | true =>
    exact absurd ((hk w.1 x.1 hw hx).mp hc) (not_lt.mpr (key_le_of_pair_key_le key h))

/-- C10, as the code behaves: for an ordered distance type and a queue of `m > k` entries
without NaN, the call passes its assertion and returns; the `k` pairs it wrote are the
first `k` entries popped, reversed, with their distances converted to `float`, which
ascend; the other `m - k` entries of the pop order are discarded and none of them is
farther than a written entry; when the distances of the queue are pairwise different,
every discarded entry is strictly nearer than every written one. -/
theorem get_search_knn_results_long_queue {G QT : Type} (hD : dist_ordered D)
    (searchKnn : HierarchicalNSW G → List QT → Nat → List (D × Nat))
    (idx : HierarchicalNSW G) (query : List QT) (k : Nat) (hk : k < 2 ^ 31)
    (indices : Ptr Nat) (distances : Ptr float)
    (hsize : k < (searchKnn idx query k).length)
    (hnan : ∀ e ∈ searchKnn idx query k, dist_t.is_nan e.1 = false)
    (hi : indices.off + k ≤ indices.mem.length)
    (hd : distances.off + k ≤ distances.mem.length) :
    ∃ ind dist,
      get_search_knn_results searchKnn idx query (k : Int) indices distances
        = Outcome.ok (ind, dist)
      ∧ List.zip ((dist.drop distances.off).take k) ((ind.drop indices.off).take k)
          = (((pop_seq (searchKnn idx query k).length (searchKnn idx query k)).take k).reverse).map
              (fun e => (dist_t.to_float e.1, e.2))
      ∧ ((dist.drop distances.off).take k).Pairwise (fun a b => float.le a b = true)
      ∧ (pop_seq (searchKnn idx query k).length (searchKnn idx query k)).Perm
          (searchKnn idx query k)
      ∧ ((pop_seq (searchKnn idx query k).length (searchKnn idx query k)).drop k).length
          = (searchKnn idx query k).length - k
      ∧ (∀ w ∈ (pop_seq (searchKnn idx query k).length (searchKnn idx query k)).take k,
          ∀ x ∈ (pop_seq (searchKnn idx query k).length (searchKnn idx query k)).drop k,
            pair_lt w x = false ∧ dist_t.lt w.1 x.1 = false)
      ∧ ((searchKnn idx query k).Pairwise
            (fun a b => dist_t.lt a.1 b.1 = true ∨ dist_t.lt b.1 a.1 = true) →
          ∀ w ∈ (pop_seq (searchKnn idx query k).length (searchKnn idx query k)).take k,
          ∀ x ∈ (pop_seq (searchKnn idx query k).length (searchKnn idx query k)).drop k,
            dist_t.lt x.1 w.1 = true) := by
  obtain ⟨key, hko, hkc⟩ := hD
  generalize hheap : searchKnn idx query k = heap at hsize hnan
  have hlen := pop_seq_row_length k heap (by omega)
  have htake := pop_seq_take k heap.length heap (by omega)
  have hsorted := pop_seq_sorted key hko heap.length heap hnan
  have hsplit : (pop_seq heap.length heap).take k ++ (pop_seq heap.length heap).drop k
      = pop_seq heap.length heap := List.take_append_drop _ _
  have hgt : ∀ w ∈ (pop_seq heap.length heap).take k, dist_t.is_nan w.1 = false :=
    fun w hw => hnan w (pop_seq_subset _ _ w (List.mem_of_mem_take hw))
  have hgd : ∀ x ∈ (pop_seq heap.length heap).drop k, dist_t.is_nan x.1 = false :=
    fun x hx => hnan x (pop_seq_subset _ _ x (List.mem_of_mem_drop hx))
  have hord : ∀ w ∈ (pop_seq heap.length heap).take k,
      ∀ x ∈ (pop_seq heap.length heap).drop k, pair_key key x ≤ pair_key key w := by
    rw [← hsplit, List.pairwise_append] at hsorted
    exact hsorted.2.2
  have heq := get_search_knn_results_eq searchKnn idx query k hk indices distances
    (by rw [hheap]; omega) hi hd
  rw [hheap] at heq
  refine ⟨_, _, heq, ?_, ?_, pop_seq_perm heap, ?_, ?_, ?_⟩
  · rw [splice_drop_take _ _ _ _ hlen.1 hd, splice_drop_take _ _ _ _ hlen.2 hi,
      ← List.map_reverse, ← List.map_reverse, zip_map_stored, htake]
    rfl
  · rw [splice_drop_take _ _ _ _ hlen.1 hd]
    exact List.pairwise_reverse.mpr (pop_seq_dist_sorted key hko hkc k heap hnan)
  · rw [List.length_drop, pop_seq_length heap.length heap (le_refl _)]
  · intro w hw x hx
    exact ⟨(pair_lt_eq_false_iff key hko w x (hgt w hw) (hgd x hx)).mpr (hord w hw x hx),
      dist_not_lt_of_pair_key_le key hko (hgt w hw) (hgd x hx) (hord w hw x hx)⟩
  · intro hdiff w hw x hx
    have hp : (pop_seq heap.length heap).Pairwise
        (fun a b => dist_t.lt a.1 b.1 = true ∨ dist_t.lt b.1 a.1 = true) :=
      ((pop_seq_perm heap).pairwise_iff (fun h => h.symm)).mpr hdiff
    rw [← hsplit, List.pairwise_append] at hp
    rcases hp.2.2 w hw x hx with h | h
    · rw [dist_not_lt_of_pair_key_le key hko (hgt w hw) (hgd x hx) (hord w hw x hx)] at h
      cases h
    · exact h

/-- Witness of the amended C10: four reachable points for the query 5, `k = 2`. -/
theorem get_search_knn_results_long_queue_witness :
    2 < (line_searchAll line_engine [5] 2).length
      ∧ (∀ e ∈ line_searchAll line_engine [5] 2, dist_t.is_nan e.1 = false)
      ∧ get_search_knn_results line_searchAll line_engine [5] ((2 : Nat) : Int)
          ⟨[0, 0], 0⟩ ⟨[0, 0], 0⟩ = Outcome.ok ([0, 3], [5, 7])
      ∧ ∃ ind dist,
          get_search_knn_results line_searchAll line_engine [5] ((2 : Nat) : Int)
            ⟨[0, 0], 0⟩ ⟨[0, 0], 0⟩ = Outcome.ok (ind, dist)
          ∧ List.zip ((dist.drop 0).take 2) ((ind.drop 0).take 2)
              = (((pop_seq (line_searchAll line_engine [5] 2).length
                  (line_searchAll line_engine [5] 2)).take 2).reverse).map
                    (fun e => (dist_t.to_float e.1, e.2))
          ∧ ((dist.drop 0).take 2).Pairwise (fun a b => float.le a b = true) := by
  obtain ⟨ind, dist, h, h1, h2, _⟩ :=
    get_search_knn_results_long_queue int_dist_ordered line_searchAll line_engine [5] 2
      (by norm_num) ⟨[0, 0], 0⟩ ⟨[0, 0], 0⟩ (by decide) (by decide) (by decide) (by decide)
  exact ⟨by decide, by decide, by decide, ind, dist, h, h1, h2⟩

/-- Counterexample to C10 as stated: an `int` queue of three entries, all at distance 1,
`k = 2`.  The queue holds more than `k` entries, the call writes the labels 1 and 2 with the
distances 1 and 1, and no entry of the queue is nearer than a written one: the output
consists of `k` nearest entries although the queue does not hold exactly `k`. -/
theorem get_search_knn_results_ties_are_nearest :
    2 < (queue_searchKnn tie_queue unit_engine [] 2).length
      ∧ get_search_knn_results (queue_searchKnn tie_queue) unit_engine [] 2
          ⟨[9, 9], 0⟩ ⟨[0, 0], 0⟩ = Outcome.ok ([1, 2], [1, 1])
      ∧ (∀ e ∈ queue_searchKnn tie_queue unit_engine [] 2,
          ∀ w ∈ [((1 : Int), 1), ((1 : Int), 2)], ¬ e.1 < w.1)
      ∧ (∀ e ∈ queue_searchKnn tie_queue unit_engine [] 2,
          ∀ d ∈ [(1 : float), 1], float.lt (dist_t.to_float e.1) d = false) := by
  refine ⟨by decide, by decide, by decide, by decide⟩

/-! ## The constructor and `set_ef` -/

theorem ctor_of_select_none {G : Type}
    (load : Space → String → Except String (HierarchicalNSW G))
    (T : ElemType) (filepath : String) (dim : Int) (metric : DistanceType)
    (h : select_space T dim metric = none) :
    index_impl.ctor load T filepath dim metric
      = Except.error (Error.logic_error unsupported_metric_msg) := by
  simp [index_impl.ctor, h]

theorem ctor_of_select_some {G : Type}
    (load : Space → String → Except String (HierarchicalNSW G))
    (T : ElemType) (filepath : String) (dim : Int) (metric : DistanceType) (space : Space)
    (h : select_space T dim metric = some space) :
    index_impl.ctor load T filepath dim metric
        ≠ Except.error (Error.logic_error unsupported_metric_msg)
      ∧ ∀ idx, index_impl.ctor load T filepath dim metric = Except.ok idx →
          idx.space_ = space ∧ idx.appr_alg_.base_layer_only = true
            ∧ idx.dim = dim ∧ idx.metric = metric := by
  unfold index_impl.ctor
  rw [h]
  cases hl : load space filepath with
  | error e => simp [hl]
  | ok alg =>
    simp only [hl]
    refine ⟨by simp, ?_⟩
    intro idx hidx
    simp only [Except.ok.injEq] at hidx
    subst hidx
    simp

theorem select_space_eq_none_iff (T : ElemType) (dim : Int) (metric : DistanceType) :
    select_space T dim metric = none ↔
      ¬ ((T = ElemType.float ∧ metric = DistanceType.L2Expanded)
          ∨ (T = ElemType.float ∧ metric = DistanceType.InnerProduct)
          ∨ (T = ElemType.int8 ∧ metric = DistanceType.L2Expanded)
          ∨ (T = ElemType.uint8 ∧ metric = DistanceType.L2Expanded)) := by
  cases T <;> cases metric <;> simp [select_space]

/-- C3: the constructor of `index_impl<T>` fails with the unsupported-metric error exactly
when (element type, metric) is none of (float, L2Expanded), (float, InnerProduct),
(int8, L2Expanded), (uint8, L2Expanded); InnerProduct with int8 or uint8 fails; each
supported pair selects one space (`L2Space`, `InnerProductSpace`, `L2SpaceI`), which is the
space of the constructed index. -/
theorem index_impl_ctor_unsupported_iff {G : Type}
    (load : Space → String → Except String (HierarchicalNSW G))
    (T : ElemType) (filepath : String) (dim : Int) (metric : DistanceType) :
    (index_impl.ctor load T filepath dim metric
          = Except.error (Error.logic_error unsupported_metric_msg)
        ↔ ¬ ((T = ElemType.float ∧ metric = DistanceType.L2Expanded)
            ∨ (T = ElemType.float ∧ metric = DistanceType.InnerProduct)
            ∨ (T = ElemType.int8 ∧ metric = DistanceType.L2Expanded)
            ∨ (T = ElemType.uint8 ∧ metric = DistanceType.L2Expanded)))
      ∧ index_impl.ctor load ElemType.int8 filepath dim DistanceType.InnerProduct
          = Except.error (Error.logic_error unsupported_metric_msg)
      ∧ index_impl.ctor load ElemType.uint8 filepath dim DistanceType.InnerProduct
          = Except.error (Error.logic_error unsupported_metric_msg)
      ∧ select_space ElemType.float dim DistanceType.L2Expanded = some (Space.L2Space dim)
      ∧ select_space ElemType.float dim DistanceType.InnerProduct
          = some (Space.InnerProductSpace dim)
      ∧ select_space ElemType.int8 dim DistanceType.L2Expanded
          = some (Space.L2SpaceI ElemType.int8 dim)
      ∧ select_space ElemType.uint8 dim DistanceType.L2Expanded
          = some (Space.L2SpaceI ElemType.uint8 dim)
      ∧ (∀ idx, index_impl.ctor load T filepath dim metric = Except.ok idx →
          select_space T dim metric = some idx.space_) := by
  refine ⟨?_, ctor_of_select_none load _ filepath dim _ (by simp [select_space]),
    ctor_of_select_none load _ filepath dim _ (by simp [select_space]),
    by simp [select_space], by simp [select_space], by simp [select_space],
    by simp [select_space], ?_⟩
  · rw [← select_space_eq_none_iff T dim metric]
    constructor
    · intro h
      cases hs : select_space T dim metric with
      | none => rfl
      | some space => exact absurd h (ctor_of_select_some load T filepath dim metric space hs).1
    · exact ctor_of_select_none load T filepath dim metric
  · intro idx hidx
    cases hs : select_space T dim metric with
    | none =>
      rw [ctor_of_select_none load T filepath dim metric hs] at hidx
      cases hidx
    | some space =>
      rw [((ctor_of_select_some load T filepath dim metric space hs).2 idx hidx).1]

/-- Witness of C3: the four supported pairs construct an index over the line loader, with
the space the pair selects; int8 with InnerProduct does not. -/
theorem index_impl_ctor_unsupported_iff_witness :
    (index_impl.ctor line_load ElemType.int8 "index.bin" 1 DistanceType.InnerProduct
          = Except.error (Error.logic_error unsupported_metric_msg)
        ↔ ¬ ((ElemType.int8 = ElemType.float
                ∧ DistanceType.InnerProduct = DistanceType.L2Expanded)
            ∨ (ElemType.int8 = ElemType.float
                ∧ DistanceType.InnerProduct = DistanceType.InnerProduct)
            ∨ (ElemType.int8 = ElemType.int8
                ∧ DistanceType.InnerProduct = DistanceType.L2Expanded)
            ∨ (ElemType.int8 = ElemType.uint8
                ∧ DistanceType.InnerProduct = DistanceType.L2Expanded)))
      ∧ index_impl.ctor line_load ElemType.uint8 "index.bin" 1 DistanceType.L2Expanded
          = Except.ok { line_index with space_ := Space.L2SpaceI ElemType.uint8 1 } :=
  ⟨(index_impl_ctor_unsupported_iff line_load ElemType.int8 "index.bin" 1
      DistanceType.InnerProduct).1, rfl⟩

/-! ## The loop over the queries -/

theorem to_int_natCast (c : Nat) (hc : c < 2 ^ 31) : to_int (c : Int) = (c : Int) := by
  unfold to_int
  omega

theorem row_bound (c Q i : Nat) (h : i < Q) : i * c + c ≤ Q * c := by
  have h1 : (i + 1) * c ≤ Q * c := Nat.mul_le_mul_right c h
  rw [Nat.add_mul, Nat.one_mul] at h1
  exact h1

theorem rows_disjoint (c i j s : Nat) (hne : i ≠ j) (hs1 : j * c ≤ s) (hs2 : s < j * c + c) :
    s < i * c ∨ i * c + c ≤ s := by
  rcases Nat.lt_or_gt_of_ne hne with h | h
  · right
    have := row_bound c j i h
    omega
  · left
    have := row_bound c i j h
    omega

theorem parallel_for_cons_ok {S : Type} (body : Nat → S → Outcome S) (i : Nat) (rest : List Nat)
    (s s1 : S) (h : body i s = Outcome.ok s1) :
    parallel_for body (i :: rest) s = parallel_for body rest s1 := by
  rw [parallel_for, h]

theorem parallel_for_cons_abort {S : Type} (body : Nat → S → Outcome S) (i : Nat)
    (rest : List Nat) (s : S) (h : body i s = Outcome.assert_failed) :
    parallel_for body (i :: rest) s = Outcome.assert_failed := by
  rw [parallel_for, h]

theorem search_body_ok {G QT : Type}
    (searchKnn : HierarchicalNSW G → List QT → Nat → List (D × Nat))
    (eng : HierarchicalNSW G) (queries : host_matrix_view QT) (c Q i : Nat)
    (hc : c < 2 ^ 31) (hiQ : i < Q) (out : List Nat × List float)
    (h1 : out.1.length = Q * c) (h2 : out.2.length = Q * c)
    (hsize : c ≤ (query_result searchKnn eng queries c i).length) :
    search_body searchKnn eng queries c c i out =
      Outcome.ok
        (out.1.take (i * c)
            ++ ((pop_seq c (query_result searchKnn eng queries c i)).map Prod.snd).reverse
            ++ out.1.drop (i * c + c),
          out.2.take (i * c)
            ++ ((pop_seq c (query_result searchKnn eng queries c i)).map dist_of).reverse
            ++ out.2.drop (i * c + c)) := by
  have hb := row_bound c Q i hiQ
  unfold search_body
  rw [to_int_natCast c hc]
  exact get_search_knn_results_eq searchKnn eng _ c hc ⟨out.1, i * c⟩ ⟨out.2, i * c⟩ hsize
    (by simp only; omega) (by simp only; omega)

theorem search_body_short {G QT : Type}
    (searchKnn : HierarchicalNSW G → List QT → Nat → List (D × Nat))
    (eng : HierarchicalNSW G) (queries : host_matrix_view QT) (c i : Nat)
    (hc : c < 2 ^ 31) (out : List Nat × List float)
    (hsize : (query_result searchKnn eng queries c i).length < c) :
    search_body searchKnn eng queries c c i out = Outcome.assert_failed := by
  unfold search_body
  rw [to_int_natCast c hc]
  exact get_search_knn_results_short searchKnn eng _ c hc _ _ hsize

theorem search_body_ok_ex {G QT : Type}
    (searchKnn : HierarchicalNSW G → List QT → Nat → List (D × Nat))
    (eng : HierarchicalNSW G) (queries : host_matrix_view QT) (c Q i : Nat)
    (hc : c < 2 ^ 31) (hiQ : i < Q) (out : List Nat × List float)
    (h1 : out.1.length = Q * c) (h2 : out.2.length = Q * c)
    (hsize : c ≤ (query_result searchKnn eng queries c i).length) :
    ∃ o, search_body searchKnn eng queries c c i out = Outcome.ok o
      ∧ o.1 = out.1.take (i * c)
            ++ ((pop_seq c (query_result searchKnn eng queries c i)).map Prod.snd).reverse
            ++ out.1.drop (i * c + c)
      ∧ o.2 = out.2.take (i * c)
            ++ ((pop_seq c (query_result searchKnn eng queries c i)).map dist_of).reverse
            ++ out.2.drop (i * c + c)
      ∧ o.1.length = Q * c ∧ o.2.length = Q * c := by
  have hb := row_bound c Q i hiQ
  have hlen := pop_seq_row_length c (query_result searchKnn eng queries c i) hsize
  refine ⟨_, search_body_ok searchKnn eng queries c Q i hc hiQ out h1 h2 hsize, rfl, rfl, ?_, ?_⟩
  · rw [splice_length out.1 (i * c) c _ hlen.2 (by omega)]
    exact h1
  · rw [splice_length out.2 (i * c) c _ hlen.1 (by omega)]
    exact h2

theorem parallel_for_rows {G QT : Type}
    (searchKnn : HierarchicalNSW G → List QT → Nat → List (D × Nat))
    (eng : HierarchicalNSW G) (queries : host_matrix_view QT) (c Q : Nat) (hc : c < 2 ^ 31)
    (order : List Nat) (hord : ∀ i ∈ order, i < Q)
    (hsize : ∀ i ∈ order, c ≤ (query_result searchKnn eng queries c i).length)
    (out : List Nat × List float) (h1 : out.1.length = Q * c) (h2 : out.2.length = Q * c) :
    ∃ res, parallel_for (search_body searchKnn eng queries c c) order out = Outcome.ok res
      ∧ res.1.length = Q * c ∧ res.2.length = Q * c
      ∧ (∀ i ∈ order, ∀ j, j < c →
          res.1[i * c + j]?
              = ((pop_seq c (query_result searchKnn eng queries c i)).map Prod.snd).reverse[j]?
            ∧ res.2[i * c + j]?
              = ((pop_seq c (query_result searchKnn eng queries c i)).map dist_of).reverse[j]?)
      ∧ (∀ s, (∀ i ∈ order, s < i * c ∨ i * c + c ≤ s) →
          res.1[s]? = out.1[s]? ∧ res.2[s]? = out.2[s]?) := by
  induction order generalizing out with
  | nil =>
    refine ⟨out, rfl, h1, h2, ?_, ?_⟩
    · intro i hi
      simp at hi
    · intro s _
      exact ⟨rfl, rfl⟩
  | cons i rest ih =>
    have hiQ : i < Q := hord i (List.mem_cons_self _ _)
    have hsz := hsize i (List.mem_cons_self _ _)
    have hb := row_bound c Q i hiQ
    have hlen := pop_seq_row_length c (query_result searchKnn eng queries c i) hsz
    obtain ⟨o, hbody, ho1, ho2, hl1, hl2⟩ :=
      search_body_ok_ex searchKnn eng queries c Q i hc hiQ out h1 h2 hsz
    obtain ⟨res, hres, hr1, hr2, hrows, hframe⟩ :=
      ih (fun x hx => hord x (List.mem_cons_of_mem _ hx))
        (fun x hx => hsize x (List.mem_cons_of_mem _ hx)) o hl1 hl2
    refine ⟨res, ?_, hr1, hr2, ?_, ?_⟩
    · rw [parallel_for_cons_ok _ _ _ _ _ hbody]
      exact hres
    · intro x hx j hj
      by_cases hxr : x ∈ rest
      · exact hrows x hxr j hj
      · have hxi : x = i := by
          rcases List.mem_cons.mp hx with h | h
          · exact h
          · exact absurd h hxr
        subst hxi
        have hfr := hframe (x * c + j) (fun y hy =>
          rows_disjoint c y x (x * c + j) (fun h => hxr (h ▸ hy)) (by omega) (by omega))
        refine ⟨?_, ?_⟩
        · rw [hfr.1, ho1]
          exact splice_getElem?_row _ _ _ _ _ (by omega) (by omega)
        · rw [hfr.2, ho2]
          exact splice_getElem?_row _ _ _ _ _ (by omega) (by omega)
    · intro s hs
      have hfr := hframe s (fun y hy => hs y (List.mem_cons_of_mem _ hy))
      have hsi := hs i (List.mem_cons_self _ _)
      refine ⟨?_, ?_⟩
      · rw [hfr.1, ho1]
        exact splice_getElem?_out _ _ _ _ hlen.2 (by omega) s hsi
      · rw [hfr.2, ho2]
        exact splice_getElem?_out _ _ _ _ hlen.1 (by omega) s hsi

theorem parallel_for_abort {G QT : Type}
    (searchKnn : HierarchicalNSW G → List QT → Nat → List (D × Nat))
    (eng : HierarchicalNSW G) (queries : host_matrix_view QT) (c Q : Nat) (hc : c < 2 ^ 31)
    (order : List Nat) (hord : ∀ i ∈ order, i < Q) (j : Nat) (hj : j ∈ order)
    (hshort : (query_result searchKnn eng queries c j).length < c)
    (out : List Nat × List float) (h1 : out.1.length = Q * c) (h2 : out.2.length = Q * c) :
    parallel_for (search_body searchKnn eng queries c c) order out = Outcome.assert_failed := by
  induction order generalizing out with
  | nil => simp at hj
  | cons i rest ih =>
    by_cases hsz : (query_result searchKnn eng queries c i).length < c
    · exact parallel_for_cons_abort _ _ _ _
        (search_body_short searchKnn eng queries c i hc out hsz)
    · have hiQ : i < Q := hord i (List.mem_cons_self _ _)
      obtain ⟨o, hbody, _, _, hl1, hl2⟩ :=
        search_body_ok_ex searchKnn eng queries c Q i hc hiQ out h1 h2 (by omega)
      have hjr : j ∈ rest := by
        rcases List.mem_cons.mp hj with h | h
        · subst h
          exact absurd hshort hsz
        · exact h
      rw [parallel_for_cons_ok _ _ _ _ _ hbody]
      exact ih (fun x hx => hord x (List.mem_cons_of_mem _ hx)) hjr o hl1 hl2

theorem row_of_getElem? {α : Type} (l row : List α) (off k : Nat) (hrow : row.length = k)
    (h : ∀ j, j < k → l[off + j]? = row[j]?) : (l.drop off).take k = row := by
  apply List.ext_getElem?
  intro j
  by_cases hj : j < k
  · rw [List.getElem?_take_of_lt hj, List.getElem?_drop]
    exact h j hj
  · rw [List.getElem?_take_eq_none (by omega), List.getElem?_eq_none (by omega)]

theorem slot_in_row (c Q s : Nat) (hs : s < Q * c) :
    s / c < Q ∧ s % c < c ∧ s / c * c + s % c = s := by
  have hcpos : 0 < c := by
    rcases Nat.eq_zero_or_pos c with h | h
    · subst h
      simp at hs
    · exact h
  refine ⟨?_, Nat.mod_lt _ hcpos, ?_⟩
  · exact Nat.div_lt_of_lt_mul (by rw [Nat.mul_comm]; exact hs)
  · rw [Nat.mul_comm]
    exact Nat.div_add_mod s c

/-- The loop over the queries ends the same way for every execution order that covers the
iterations `0..Q-1` and for every initial content of the output buffers. -/
theorem parallel_for_determined {G QT : Type}
    (searchKnn : HierarchicalNSW G → List QT → Nat → List (D × Nat))
    (eng : HierarchicalNSW G) (queries : host_matrix_view QT) (c Q : Nat) (hc : c < 2 ^ 31)
    (o1 o2 : List Nat) (hp1 : o1.Perm (List.range Q)) (hp2 : o2.Perm (List.range Q))
    (out1 out2 : List Nat × List float)
    (h11 : out1.1.length = Q * c) (h12 : out1.2.length = Q * c)
    (h21 : out2.1.length = Q * c) (h22 : out2.2.length = Q * c) :
    parallel_for (search_body searchKnn eng queries c c) o1 out1
      = parallel_for (search_body searchKnn eng queries c c) o2 out2 := by
  have hm1 : ∀ i, i ∈ o1 ↔ i < Q := fun i => by rw [hp1.mem_iff, List.mem_range]
  have hm2 : ∀ i, i ∈ o2 ↔ i < Q := fun i => by rw [hp2.mem_iff, List.mem_range]
  by_cases hall : ∀ i, i < Q → c ≤ (query_result searchKnn eng queries c i).length
  · obtain ⟨r1, hr1, hl11, hl12, hrow1, _⟩ :=
      parallel_for_rows searchKnn eng queries c Q hc o1 (fun i hi => (hm1 i).mp hi)
        (fun i hi => hall i ((hm1 i).mp hi)) out1 h11 h12
    obtain ⟨r2, hr2, hl21, hl22, hrow2, _⟩ :=
      parallel_for_rows searchKnn eng queries c Q hc o2 (fun i hi => (hm2 i).mp hi)
        (fun i hi => hall i ((hm2 i).mp hi)) out2 h21 h22
    rw [hr1, hr2]
    congr 1
    apply Prod.ext
    · apply List.ext_getElem?
      intro s
      by_cases hs : s < Q * c
      · obtain ⟨hi, hj, hsum⟩ := slot_in_row c Q s hs
        have e1 := (hrow1 (s / c) ((hm1 _).mpr hi) (s % c) hj).1
        have e2 := (hrow2 (s / c) ((hm2 _).mpr hi) (s % c) hj).1
        rw [hsum] at e1 e2
        rw [e1, e2]
      · rw [List.getElem?_eq_none (by omega), List.getElem?_eq_none (by omega)]
    · apply List.ext_getElem?
      intro s
      by_cases hs : s < Q * c
      · obtain ⟨hi, hj, hsum⟩ := slot_in_row c Q s hs
        have e1 := (hrow1 (s / c) ((hm1 _).mpr hi) (s % c) hj).2
        have e2 := (hrow2 (s / c) ((hm2 _).mpr hi) (s % c) hj).2
        rw [hsum] at e1 e2
        rw [e1, e2]
      · rw [List.getElem?_eq_none (by omega), List.getElem?_eq_none (by omega)]
  · obtain ⟨j, hjQ, hshort⟩ : ∃ j, j < Q
        ∧ (query_result searchKnn eng queries c j).length < c := by
      by_contra hcon
      apply hall
      intro i hi
      by_contra hlt
      exact hcon ⟨i, hi, by omega⟩
    rw [parallel_for_abort searchKnn eng queries c Q hc o1 (fun i hi => (hm1 i).mp hi) j
        ((hm1 j).mpr hjQ) hshort out1 h11 h12,
      parallel_for_abort searchKnn eng queries c Q hc o2 (fun i hi => (hm2 i).mp hi) j
        ((hm2 j).mpr hjQ) hshort out2 h21 h22]

/-- The two branches of `search` run the same loop; only the execution order differs. -/
theorem search_eq {G QT : Type}
    (searchKnn : HierarchicalNSW G → List QT → Nat → List (D × Nat))
    (omp : Option Int → Nat → List Nat)
    (params : search_params) (idx : index_impl G)
    (queries : host_matrix_view QT) (neighbors : host_matrix_view Nat)
    (distances : host_matrix_view float) :
    search searchKnn omp params idx queries neighbors distances =
      (idx.set_ef params.ef,
        parallel_for
          (search_body searchKnn (idx.set_ef params.ef).get_index queries
            neighbors.extent1 distances.extent1)
          (omp (if params.num_threads ≠ 0 then some params.num_threads else none)
            queries.extent0)
          (neighbors.data_handle, distances.data_handle)) := by
  unfold search
  by_cases h : params.num_threads ≠ 0
  · simp only [if_pos h]
  · simp only [if_neg h]

/-! ## `search`: rows, threads, parameters, failures, `ef` -/

/-- C5: for a batch of `Q` queries and `Q x k` row-major outputs, `search` returns with both
outputs of `Q * k` slots; row `i` of neighbors and of distances is what
`get_search_knn_results` writes for query `i` alone into a row of its own; iteration `i`
leaves every slot outside row `i` unchanged; and the outputs do not depend on what the
output matrices held before the call (every slot is written). -/
theorem search_rows {G QT : Type}
    (searchKnn : HierarchicalNSW G → List QT → Nat → List (D × Nat))
    (omp : Option Int → Nat → List Nat)
    (homp : ∀ clause n, (omp clause n).Perm (List.range n))
    (params : search_params) (idx : index_impl G)
    (queries : host_matrix_view QT) (neighbors : host_matrix_view Nat)
    (distances : host_matrix_view float)
    (hc : neighbors.extent1 < 2 ^ 31) (hdx : distances.extent1 = neighbors.extent1)
    (hN : neighbors.data_handle.length = queries.extent0 * neighbors.extent1)
    (hD : distances.data_handle.length = queries.extent0 * neighbors.extent1)
    (hsize : ∀ i, i < queries.extent0 → neighbors.extent1 ≤
      (query_result searchKnn (idx.set_ef params.ef).get_index queries
        neighbors.extent1 i).length) :
    ∃ nb ds,
      (search searchKnn omp params idx queries neighbors distances).2 = Outcome.ok (nb, ds)
      ∧ nb.length = queries.extent0 * neighbors.extent1
      ∧ ds.length = queries.extent0 * neighbors.extent1
      ∧ (∀ i, i < queries.extent0 → ∀ (ind0 : List Nat) (dist0 : List float),
          ind0.length = neighbors.extent1 → dist0.length = neighbors.extent1 →
          get_search_knn_results searchKnn (idx.set_ef params.ef).get_index
              (queries.data_handle.drop (i * queries.extent1)) (neighbors.extent1 : Int)
              ⟨ind0, 0⟩ ⟨dist0, 0⟩
            = Outcome.ok ((nb.drop (i * neighbors.extent1)).take neighbors.extent1,
                (ds.drop (i * neighbors.extent1)).take neighbors.extent1))
      ∧ (∀ i, i < queries.extent0 → ∀ out : List Nat × List float,
          out.1.length = queries.extent0 * neighbors.extent1 →
          out.2.length = queries.extent0 * neighbors.extent1 →
          ∃ res, search_body searchKnn (idx.set_ef params.ef).get_index queries
                neighbors.extent1 distances.extent1 i out = Outcome.ok res
            ∧ ∀ s, s < i * neighbors.extent1 ∨ i * neighbors.extent1 + neighbors.extent1 ≤ s →
                res.1[s]? = out.1[s]? ∧ res.2[s]? = out.2[s]?)
      ∧ (∀ (neighbors2 : host_matrix_view Nat) (distances2 : host_matrix_view float),
          neighbors2.extent1 = neighbors.extent1 → distances2.extent1 = neighbors.extent1 →
          neighbors2.data_handle.length = queries.extent0 * neighbors.extent1 →
          distances2.data_handle.length = queries.extent0 * neighbors.extent1 →
          (search searchKnn omp params idx queries neighbors2 distances2).2
            = Outcome.ok (nb, ds)) := by
  have hm : ∀ clause i, i ∈ omp clause queries.extent0 ↔ i < queries.extent0 :=
    fun clause i => by rw [(homp clause queries.extent0).mem_iff, List.mem_range]
  obtain ⟨res, hres, hl1, hl2, hrows, _⟩ :=
    parallel_for_rows searchKnn (idx.set_ef params.ef).get_index queries neighbors.extent1
      queries.extent0 hc
      (omp (if params.num_threads ≠ 0 then some params.num_threads else none) queries.extent0)
      (fun i hi => (hm _ i).mp hi) (fun i hi => hsize i ((hm _ i).mp hi))
      (neighbors.data_handle, distances.data_handle) hN hD
  refine ⟨res.1, res.2, ?_, hl1, hl2, ?_, ?_, ?_⟩
  · rw [search_eq, hdx]
    exact hres
  · intro i hi ind0 dist0 hi0 hd0
    have hsz := hsize i hi
    have hlen := pop_seq_row_length neighbors.extent1
      (query_result searchKnn (idx.set_ef params.ef).get_index queries neighbors.extent1 i) hsz
    rw [get_search_knn_results_eq searchKnn _ _ neighbors.extent1 hc ⟨ind0, 0⟩ ⟨dist0, 0⟩ hsz
      (by simp only; omega) (by simp only; omega)]
    have e1 := row_of_getElem? res.1 _ (i * neighbors.extent1) neighbors.extent1 hlen.2
      (fun j hj => (hrows i ((hm _ i).mpr hi) j hj).1)
    have e2 := row_of_getElem? res.2 _ (i * neighbors.extent1) neighbors.extent1 hlen.1
      (fun j hj => (hrows i ((hm _ i).mpr hi) j hj).2)
    rw [e1, e2]
    have d1 : ind0.drop (0 + neighbors.extent1) = [] := List.drop_of_length_le (by omega)
    have d2 : dist0.drop (0 + neighbors.extent1) = [] := List.drop_of_length_le (by omega)
    simp only [List.take_zero, List.nil_append, d1, d2, List.append_nil]
    rfl
  · intro i hi out ho1 ho2
    have hsz := hsize i hi
    have hb := row_bound neighbors.extent1 queries.extent0 i hi
    have hlen := pop_seq_row_length neighbors.extent1
      (query_result searchKnn (idx.set_ef params.ef).get_index queries neighbors.extent1 i) hsz
    rw [hdx]
    refine ⟨_, search_body_ok searchKnn _ queries neighbors.extent1 queries.extent0 i hc hi
      out ho1 ho2 hsz, ?_⟩
    intro s hs
    exact ⟨splice_getElem?_out _ _ _ _ hlen.2 (by omega) s hs,
      splice_getElem?_out _ _ _ _ hlen.1 (by omega) s hs⟩
  · intro neighbors2 distances2 hx1 hx2 hN2 hD2
    rw [search_eq, hx1, hx2, ← hres]
    exact parallel_for_determined searchKnn _ queries neighbors.extent1 queries.extent0 hc
      _ _ (homp _ _) (homp _ _) _ _ hN2 hD2 hN hD

theorem omp_mixed_perm (clause : Option Int) (n : Nat) :
    (omp_mixed clause n).Perm (List.range n) := by
  cases clause with
  | none => exact List.Perm.refl _
  | some t => exact List.reverse_perm _

theorem omp_ascending_perm (clause : Option Int) (n : Nat) :
    (omp_ascending clause n).Perm (List.range n) := List.Perm.refl _

/-- Witness of C5: three queries on the line index, `k = 2`, iterations run in descending
order; the rows of the outputs are those of the single queries. -/
theorem search_rows_witness :
    (∀ i, i < line_queries.extent0 → line_neighbors.extent1 ≤
        (query_result line_searchKnn (line_index.set_ef 10).get_index line_queries
          line_neighbors.extent1 i).length)
      ∧ (search line_searchKnn omp_mixed ⟨10, 4⟩ line_index line_queries line_neighbors
          line_distances).2 = Outcome.ok ([1, 0, 1, 0, 0, 1], [2, 5, 2, 9, 1, 6])
      ∧ get_search_knn_results line_searchKnn (line_index.set_ef 10).get_index [9, 1] 2
          ⟨[0, 0], 0⟩ ⟨[0, 0], 0⟩ = Outcome.ok ([1, 0], [2, 9])
      ∧ ∃ nb ds,
          (search line_searchKnn omp_mixed ⟨10, 4⟩ line_index line_queries line_neighbors
            line_distances).2 = Outcome.ok (nb, ds)
          ∧ nb.length = 3 * 2 ∧ ds.length = 3 * 2 := by
  obtain ⟨nb, ds, h, h1, h2, _⟩ :=
    search_rows line_searchKnn omp_mixed omp_mixed_perm ⟨10, 4⟩ line_index line_queries
      line_neighbors line_distances (by decide) rfl rfl rfl (by decide)
  exact ⟨by decide, by decide, by decide, nb, ds, h, h1, h2⟩

/-- C6: with outputs of shape `Q x k`, `search` gives the same result (the same outputs, or
the same failure) whatever `num_threads` is and whatever order the OpenMP runtime executes
the iterations in: `num_threads = 4` against `num_threads = 1`, and the branch without
clause (`num_threads = 0`) against the branch with it. -/
theorem search_num_threads_irrelevant {G QT : Type}
    (searchKnn : HierarchicalNSW G → List QT → Nat → List (D × Nat))
    (omp1 omp2 : Option Int → Nat → List Nat)
    (homp1 : ∀ clause n, (omp1 clause n).Perm (List.range n))
    (homp2 : ∀ clause n, (omp2 clause n).Perm (List.range n))
    (ef : Int) (idx : index_impl G)
    (queries : host_matrix_view QT) (neighbors : host_matrix_view Nat)
    (distances : host_matrix_view float)
    (hc : neighbors.extent1 < 2 ^ 31) (hdx : distances.extent1 = neighbors.extent1)
    (hN : neighbors.data_handle.length = queries.extent0 * neighbors.extent1)
    (hD : distances.data_handle.length = queries.extent0 * neighbors.extent1) :
    (∀ t1 t2 : Int,
        search searchKnn omp1 ⟨ef, t1⟩ idx queries neighbors distances
          = search searchKnn omp2 ⟨ef, t2⟩ idx queries neighbors distances)
      ∧ search searchKnn omp1 ⟨ef, 4⟩ idx queries neighbors distances
          = search searchKnn omp2 ⟨ef, 1⟩ idx queries neighbors distances
      ∧ (∀ t : Int, t ≠ 0 →
          search searchKnn omp1 ⟨ef, 0⟩ idx queries neighbors distances
            = search searchKnn omp2 ⟨ef, t⟩ idx queries neighbors distances) := by
  have key : ∀ t1 t2 : Int,
      search searchKnn omp1 ⟨ef, t1⟩ idx queries neighbors distances
        = search searchKnn omp2 ⟨ef, t2⟩ idx queries neighbors distances := by
    intro t1 t2
    rw [search_eq, search_eq, hdx]
    congr 1
    exact parallel_for_determined searchKnn _ queries neighbors.extent1 queries.extent0 hc
      _ _ (homp1 _ _) (homp2 _ _) _ _ hN hD hN hD
  exact ⟨key, key 4 1, fun t _ => key 0 t⟩

/-- Witness of C6: the line batch with one runtime running ascending and one descending. -/
theorem search_num_threads_irrelevant_witness :
    search line_searchKnn omp_mixed ⟨10, 4⟩ line_index line_queries line_neighbors
        line_distances
      = search line_searchKnn omp_ascending ⟨10, 1⟩ line_index line_queries line_neighbors
        line_distances :=
  (search_num_threads_irrelevant line_searchKnn omp_mixed omp_ascending omp_mixed_perm
    omp_ascending_perm 10 line_index line_queries line_neighbors line_distances
    (by decide) rfl rfl rfl).2.1

/-- C7, as the code behaves: `search` checks neither `params.ef` against `topK` nor the
query width against the dimension of the index.  For a call with `ef < topK` or with a
width different from the dimension, when every query yields at least `topK` entries,
`search` sets `ef`, runs every query and returns with the `Q x topK` outputs written. -/
theorem search_runs_without_validation {G QT : Type}
    (searchKnn : HierarchicalNSW G → List QT → Nat → List (D × Nat))
    (omp : Option Int → Nat → List Nat)
    (homp : ∀ clause n, (omp clause n).Perm (List.range n))
    (params : search_params) (idx : index_impl G)
    (queries : host_matrix_view QT) (neighbors : host_matrix_view Nat)
    (distances : host_matrix_view float)
    (_hbad : params.ef < (neighbors.extent1 : Int) ∨ (queries.extent1 : Int) ≠ idx.dim)
    (hc : neighbors.extent1 < 2 ^ 31) (hdx : distances.extent1 = neighbors.extent1)
    (hN : neighbors.data_handle.length = queries.extent0 * neighbors.extent1)
    (hD : distances.data_handle.length = queries.extent0 * neighbors.extent1)
    (hsize : ∀ i, i < queries.extent0 → neighbors.extent1 ≤
      (query_result searchKnn (idx.set_ef params.ef).get_index queries
        neighbors.extent1 i).length) :
    ∃ nb ds,
      search searchKnn omp params idx queries neighbors distances
        = (idx.set_ef params.ef, Outcome.ok (nb, ds))
      ∧ nb.length = queries.extent0 * neighbors.extent1
      ∧ ds.length = queries.extent0 * neighbors.extent1
      ∧ ∀ i j, i < queries.extent0 → j < neighbors.extent1 →
          nb[i * neighbors.extent1 + j]?
              = ((pop_seq neighbors.extent1 (query_result searchKnn
                  (idx.set_ef params.ef).get_index queries neighbors.extent1 i)).map
                    Prod.snd).reverse[j]?
            ∧ ds[i * neighbors.extent1 + j]?
              = ((pop_seq neighbors.extent1 (query_result searchKnn
                  (idx.set_ef params.ef).get_index queries neighbors.extent1 i)).map
                    (fun e => dist_t.to_float e.1)).reverse[j]? := by
  have hm : ∀ clause i, i ∈ omp clause queries.extent0 ↔ i < queries.extent0 :=
    fun clause i => by rw [(homp clause queries.extent0).mem_iff, List.mem_range]
  obtain ⟨res, hres, hl1, hl2, hrows, _⟩ :=
    parallel_for_rows searchKnn (idx.set_ef params.ef).get_index queries neighbors.extent1
      queries.extent0 hc
      (omp (if params.num_threads ≠ 0 then some params.num_threads else none) queries.extent0)
      (fun i hi => (hm _ i).mp hi) (fun i hi => hsize i ((hm _ i).mp hi))
      (neighbors.data_handle, distances.data_handle) hN hD
  refine ⟨res.1, res.2, ?_, hl1, hl2, fun i j hi hj => hrows i ((hm _ i).mpr hi) j hj⟩
  rw [search_eq, hdx, hres]

/-- Witness of the amended C7: `ef = 1` with `topK = 2`, and two-dimensional queries against
the one-dimensional line index. -/
theorem search_runs_without_validation_witness :
    ((1 : Int) < ((line_neighbors.extent1 : Nat) : Int)
        ∨ ((wide_queries.extent1 : Nat) : Int) ≠ line_index.dim)
      ∧ ∃ nb ds,
          search line_searchKnn omp_ascending ⟨1, 0⟩ line_index wide_queries line_neighbors
              line_distances
            = (line_index.set_ef 1, Outcome.ok (nb, ds))
          ∧ nb.length = 3 * 2 ∧ ds.length = 3 * 2 := by
  obtain ⟨nb, ds, h, h1, h2, _⟩ :=
    search_runs_without_validation line_searchKnn omp_ascending omp_ascending_perm ⟨1, 0⟩
      line_index wide_queries line_neighbors line_distances (by decide) (by decide) rfl rfl rfl
      (by decide)
  exact ⟨by decide, nb, ds, h, h1, h2⟩

/-- Counterexample to C7 as stated: with `ef = 1 < topK = 2`, and also with queries of width
2 against the index of dimension 1, `search` does not fail: it returns, the engine has
`ef_ = 1` instead of 10 and the outputs are overwritten. -/
theorem search_invalid_parameters_not_rejected :
    (1 : Int) < ((line_neighbors.extent1 : Nat) : Int)
      ∧ ((wide_queries.extent1 : Nat) : Int) ≠ line_index.dim
      ∧ search line_searchKnn omp_ascending ⟨1, 0⟩ line_index line_queries line_neighbors
            line_distances
          = ({ line_index with appr_alg_ := { line_engine with ef_ := 1 } },
              Outcome.ok ([1, 0, 1, 0, 0, 1], [2, 5, 2, 9, 1, 6]))
      ∧ search line_searchKnn omp_ascending ⟨1, 0⟩ line_index wide_queries line_neighbors
            line_distances
          = ({ line_index with appr_alg_ := { line_engine with ef_ := 1 } },
              Outcome.ok ([1, 0, 1, 0, 0, 1], [2, 5, 2, 9, 1, 6]))
      ∧ (search line_searchKnn omp_ascending ⟨1, 0⟩ line_index line_queries line_neighbors
            line_distances).1 ≠ line_index
      ∧ ([1, 0, 1, 0, 0, 1], [(2 : float), 5, 2, 9, 1, 6])
          ≠ (line_neighbors.data_handle, line_distances.data_handle) := by
  refine ⟨by decide, by decide, by decide, by decide, by decide, by decide⟩

/-- C8, as the code behaves: when some query `j` of the batch yields fewer than `topK`
entries, its failed assertion ends the whole call of `search`, in every execution order:
no output is returned for any query and no failure is reported per index. -/
theorem search_aborts_on_short_queue {G QT : Type}
    (searchKnn : HierarchicalNSW G → List QT → Nat → List (D × Nat))
    (omp : Option Int → Nat → List Nat)
    (homp : ∀ clause n, (omp clause n).Perm (List.range n))
    (params : search_params) (idx : index_impl G)
    (queries : host_matrix_view QT) (neighbors : host_matrix_view Nat)
    (distances : host_matrix_view float)
    (hc : neighbors.extent1 < 2 ^ 31) (hdx : distances.extent1 = neighbors.extent1)
    (hN : neighbors.data_handle.length = queries.extent0 * neighbors.extent1)
    (hD : distances.data_handle.length = queries.extent0 * neighbors.extent1)
    (j : Nat) (hj : j < queries.extent0)
    (hshort : (query_result searchKnn (idx.set_ef params.ef).get_index queries
        neighbors.extent1 j).length < neighbors.extent1) :
    search searchKnn omp params idx queries neighbors distances
        = (idx.set_ef params.ef, Outcome.assert_failed)
      ∧ ∀ out, (search searchKnn omp params idx queries neighbors distances).2
          ≠ Outcome.ok out := by
  have hm : ∀ clause i, i ∈ omp clause queries.extent0 ↔ i < queries.extent0 :=
    fun clause i => by rw [(homp clause queries.extent0).mem_iff, List.mem_range]
  have h : search searchKnn omp params idx queries neighbors distances
      = (idx.set_ef params.ef, Outcome.assert_failed) := by
    rw [search_eq, hdx]
    congr 1
    exact parallel_for_abort searchKnn _ queries neighbors.extent1 queries.extent0 hc _
      (fun i hi => (hm _ i).mp hi) j ((hm _ j).mpr hj) hshort _ hN hD
  refine ⟨h, ?_⟩
  intro out hout
  rw [h] at hout
  cases hout

/-- Witness of the amended C8: the second of three queries reaches no point. -/
theorem search_aborts_on_short_queue_witness :
    (query_result line_searchKnn (line_index.set_ef 10).get_index far_queries
          line_neighbors.extent1 1).length < line_neighbors.extent1
      ∧ (search line_searchKnn omp_mixed ⟨10, 4⟩ line_index far_queries line_neighbors
            line_distances
          = (line_index.set_ef 10, Outcome.assert_failed)
        ∧ ∀ out, (search line_searchKnn omp_mixed ⟨10, 4⟩ line_index far_queries
            line_neighbors line_distances).2 ≠ Outcome.ok out) :=
  ⟨by decide,
    search_aborts_on_short_queue line_searchKnn omp_mixed omp_mixed_perm ⟨10, 4⟩ line_index
      far_queries line_neighbors line_distances (by decide) rfl rfl rfl 1 (by decide)
      (by decide)⟩

/-- Counterexample to C8 as stated: in the batch 5, 100, 9 with `topK = 2` only the second
query fails; the first and the third succeed on their own, yet `search` ends in the failed
assertion in ascending as in descending order, without the rows of the other queries. -/
theorem search_short_queue_aborts_batch :
    get_search_knn_results line_searchKnn (line_index.set_ef 10).get_index
        (far_queries.data_handle.drop (0 * far_queries.extent1)) 2 ⟨[0, 0], 0⟩ ⟨[0, 0], 0⟩
          = Outcome.ok ([1, 0], [2, 5])
      ∧ get_search_knn_results line_searchKnn (line_index.set_ef 10).get_index
        (far_queries.data_handle.drop (1 * far_queries.extent1)) 2 ⟨[0, 0], 0⟩ ⟨[0, 0], 0⟩
          = Outcome.assert_failed
      ∧ get_search_knn_results line_searchKnn (line_index.set_ef 10).get_index
        (far_queries.data_handle.drop (2 * far_queries.extent1)) 2 ⟨[0, 0], 0⟩ ⟨[0, 0], 0⟩
          = Outcome.ok ([1, 0], [2, 9])
      ∧ (search line_searchKnn omp_ascending ⟨10, 4⟩ line_index far_queries line_neighbors
          line_distances).2 = Outcome.assert_failed
      ∧ (search line_searchKnn omp_mixed ⟨10, 4⟩ line_index far_queries line_neighbors
          line_distances).2 = Outcome.assert_failed
      ∧ ¬ ∃ out, (search line_searchKnn omp_ascending ⟨10, 4⟩ line_index far_queries
          line_neighbors line_distances).2 = Outcome.ok out := by
  refine ⟨by decide, by decide, by decide, by decide, by decide, ?_⟩
  rintro ⟨out, hout⟩
  have h : (search line_searchKnn omp_ascending ⟨10, 4⟩ line_index far_queries line_neighbors
      line_distances).2 = Outcome.assert_failed := by decide
  rw [h] at hout
  cases hout

theorem to_size_t_of_nonneg (ef : Int) (h0 : 0 ≤ ef) (h1 : ef < 2 ^ 31) :
    ((to_size_t ef : Nat) : Int) = ef := by
  unfold to_size_t
  have h : ef % 2 ^ 64 = ef := Int.emod_eq_of_lt h0 (by omega)
  rw [h]
  exact Int.toNat_of_nonneg h0

/-- C9: `search` leaves the index as `set_ef(params.ef)` leaves it: the engine's `ef_` is
`params.ef`; graph, space, `base_layer_only`, dimension and metric are unchanged; every
iteration runs on the engine whose `ef_` is `params.ef`, so the result does not depend on
the `ef_` the engine had before the call; `set_ef` changes the field `ef_` only, and the
constructor sets `base_layer_only` to true, which `set_ef` keeps. -/
theorem search_sets_ef {G QT : Type}
    (searchKnn : HierarchicalNSW G → List QT → Nat → List (D × Nat))
    (omp : Option Int → Nat → List Nat)
    (params : search_params) (idx : index_impl G)
    (queries : host_matrix_view QT) (neighbors : host_matrix_view Nat)
    (distances : host_matrix_view float)
    (h0 : 0 ≤ params.ef) (h1 : params.ef < 2 ^ 31) :
    (search searchKnn omp params idx queries neighbors distances).1 = idx.set_ef params.ef
      ∧ (((search searchKnn omp params idx queries neighbors distances).1.appr_alg_.ef_
            : Nat) : Int) = params.ef
      ∧ (search searchKnn omp params idx queries neighbors distances).1.appr_alg_.graph
          = idx.appr_alg_.graph
      ∧ (search searchKnn omp params idx queries neighbors distances).1.appr_alg_.base_layer_only
          = idx.appr_alg_.base_layer_only
      ∧ (search searchKnn omp params idx queries neighbors distances).1.space_ = idx.space_
      ∧ (search searchKnn omp params idx queries neighbors distances).1.dim = idx.dim
      ∧ (search searchKnn omp params idx queries neighbors distances).1.metric = idx.metric
      ∧ (search searchKnn omp params idx queries neighbors distances).2
          = parallel_for
              (search_body searchKnn
                { ef_ := params.ef.toNat, base_layer_only := idx.appr_alg_.base_layer_only,
                  graph := idx.appr_alg_.graph }
                queries neighbors.extent1 distances.extent1)
              (omp (if params.num_threads ≠ 0 then some params.num_threads else none)
                queries.extent0)
              (neighbors.data_handle, distances.data_handle)
      ∧ (∀ ef0 : Nat,
          search searchKnn omp params
              { idx with appr_alg_ := { idx.appr_alg_ with ef_ := ef0 } }
              queries neighbors distances
            = search searchKnn omp params idx queries neighbors distances)
      ∧ (∀ ef : Int,
          (idx.set_ef ef).appr_alg_.graph = idx.appr_alg_.graph
            ∧ (idx.set_ef ef).appr_alg_.base_layer_only = idx.appr_alg_.base_layer_only
            ∧ (idx.set_ef ef).space_ = idx.space_
            ∧ (idx.set_ef ef).dim = idx.dim ∧ (idx.set_ef ef).metric = idx.metric
            ∧ (idx.set_ef ef).appr_alg_.ef_ = to_size_t ef)
      ∧ (∀ (load : Space → String → Except String (HierarchicalNSW G)) (T : ElemType)
          (filepath : String) (dim : Int) (metric : DistanceType) (built : index_impl G),
          index_impl.ctor load T filepath dim metric = Except.ok built →
            built.appr_alg_.base_layer_only = true
              ∧ (built.set_ef params.ef).appr_alg_.base_layer_only = true) := by
  have hsz : to_size_t params.ef = params.ef.toNat := by
    have h := to_size_t_of_nonneg params.ef h0 h1
    omega
  refine ⟨by rw [search_eq], ?_, by rw [search_eq]; rfl, by rw [search_eq]; rfl,
    by rw [search_eq]; rfl, by rw [search_eq]; rfl, by rw [search_eq]; rfl, ?_, ?_,
    fun ef => ⟨rfl, rfl, rfl, rfl, rfl, rfl⟩, ?_⟩
  · rw [search_eq]
    exact to_size_t_of_nonneg params.ef h0 h1
  · rw [search_eq]
    simp only [index_impl.set_ef, index_impl.get_index, hsz]
  · intro ef0
    rw [search_eq, search_eq]
    rfl
  · intro load T filepath dim metric built hbuilt
    cases hs : select_space T dim metric with
    | none =>
      rw [ctor_of_select_none load T filepath dim metric hs] at hbuilt
      cases hbuilt
    | some space =>
      have h := ((ctor_of_select_some load T filepath dim metric space hs).2 built hbuilt).2.1
      exact ⟨h, h⟩

/-- Witness of C9: `ef = 7` on the line index, whose engine had `ef_ = 10`. -/
theorem search_sets_ef_witness :
    (0 : Int) ≤ 7
      ∧ (search line_searchKnn omp_mixed ⟨7, 4⟩ line_index line_queries line_neighbors
          line_distances).1 = { line_index with appr_alg_ := { line_engine with ef_ := 7 } }
      ∧ (search line_searchKnn omp_mixed ⟨7, 4⟩ line_index line_queries line_neighbors
          line_distances).1 = line_index.set_ef 7 :=
  ⟨by decide, by decide,
    (search_sets_ef line_searchKnn omp_mixed ⟨7, 4⟩ line_index line_queries line_neighbors
      line_distances (by decide) (by decide)).1⟩

end cuvs.neighbors.hnsw.detail
